import Mathlib

/-!
# Complaint portal: shallow embedding of `src/complaint-portal`

The Go program keeps three process-wide variables (`users`, `complaints`,
`idCounter`, see `main.go`) and serves seven HTTP endpoints (`handlers.go`)
built on the helpers of `utils.go`.  The embedding below threads those three
variables through every function as an explicit `Store`.

Modelling conventions:

* a Go `string` received through `encoding/json` is valid UTF-8, so it is a
  Lean `String`; `len` is the UTF-8 byte size;
* a Go `map[string]*T` is an association list searched from the front, whose
  `mapSet` overwrites an existing key in place; every pointer held by the
  program is reachable through exactly one key, so a write through the pointer
  found under key `k` is `mapSet m k`;
* Go `int` is 64-bit two's complement: `idCounter++` wraps (`wrapInt64`); the
  properties that rest on identifiers being fresh are therefore stated for runs
  of fewer than `2^63 - 1` requests, within which the counter, starting at 1
  and growing by at most one per request, cannot wrap;
* the outcomes of `time.Now()` and `crypto/rand.Read` are inputs (`Env`);
* `json.NewDecoder(r.Body).Decode(&req)` either fails or yields the request
  struct: the body of a request is `Option` of that struct.
-/

namespace ComplaintPortal

set_option maxRecDepth 20000

/-! ## Go runtime pieces -/

/-- Association-list model of a Go `map[string]*T`. -/
abbrev GoMap (β : Type) := List (String × β)

/-- Map read `m[k]` with the `exists` flag folded into the `Option`. -/
def mapGet {β : Type} : GoMap β → String → Option β
  | [], _ => none
  | (k', v) :: m, k => if k' = k then some v else mapGet m k

/-- Map write `m[k] = v`: overwrite the entry of `k` or add a new one. -/
def mapSet {β : Type} : GoMap β → String → β → GoMap β
  | [], k, v => [(k, v)]
  | (k', v') :: m, k, v => if k' = k then (k, v) :: m else (k', v') :: mapSet m k v

/-- Two's complement wrap-around of a 64-bit Go `int`. -/
def wrapInt64 (x : Int) : Int := (x + 2 ^ 63) % 2 ^ 64 - 2 ^ 63

/-- The decimal digit character of `d` (for `d < 10`). -/
def digitChar (d : Nat) : Char :=
  match d with
  | 0 => '0' | 1 => '1' | 2 => '2' | 3 => '3' | 4 => '4'
  | 5 => '5' | 6 => '6' | 7 => '7' | 8 => '8' | _ => '9'

/-- Decimal digits of `n`, most significant first; `fuel` bounds the number of
digits and `n + 1` always suffices. -/
def decDigits : Nat → Nat → List Char
  | 0, _ => []
  | fuel + 1, n =>
    if n < 10 then [digitChar n] else decDigits fuel (n / 10) ++ [digitChar (n % 10)]

/-- Decimal representation of a natural number. -/
def natToDec (n : Nat) : String := String.mk (decDigits (n + 1) n)

/-- Go `strconv.Itoa`. -/
def itoa (i : Int) : String :=
  if i < 0 then "-" ++ natToDec i.natAbs else natToDec i.toNat

/-- Lower-case hexadecimal digit, as used by `encoding/hex`. -/
def hexDigit (d : Nat) : Char :=
  match d with
  | 0 => '0' | 1 => '1' | 2 => '2' | 3 => '3' | 4 => '4' | 5 => '5' | 6 => '6' | 7 => '7'
  | 8 => '8' | 9 => '9' | 10 => 'a' | 11 => 'b' | 12 => 'c' | 13 => 'd' | 14 => 'e' | _ => 'f'

/-- Go `hex.EncodeToString`: two lower-case hex digits per byte. -/
def hexEncodeToString (bytes : List (Fin 256)) : String :=
  String.mk (bytes.flatMap (fun b => [hexDigit (b.val / 16), hexDigit (b.val % 16)]))

/-- Go `strings.ToUpper`, on the ASCII range it is applied to here. -/
def toUpper (s : String) : String := String.mk (s.data.map Char.toUpper)

/-- Go `unicode.IsSpace`: the Unicode White_Space code points. -/
def isSpace (c : Char) : Bool :=
  let n := c.toNat
  (9 ≤ n && n ≤ 13) || n = 32 || n = 0x85 || n = 0xA0 || n = 0x1680 ||
  (0x2000 ≤ n && n ≤ 0x200A) || n = 0x2028 || n = 0x2029 || n = 0x202F ||
  n = 0x205F || n = 0x3000

/-- Go `strings.TrimSpace`: drop leading and trailing white space. -/
def trimSpace (s : String) : String :=
  String.mk ((s.data.dropWhile isSpace).reverse.dropWhile isSpace).reverse

/-- Go `len(s)` on a string: the number of bytes of its UTF-8 encoding. -/
def len (s : String) : Nat := s.utf8ByteSize

/-- Go `strings.Split(s, sep)` for a one-character separator, on characters. -/
def splitChars (sep : Char) : List Char → List (List Char)
  | [] => [[]]
  | c :: cs =>
    if c = sep then [] :: splitChars sep cs
    else
      match splitChars sep cs with
      | p :: ps => (c :: p) :: ps
      | [] => [[c]]

/-- Go `strings.Split(s, "@")`. -/
def splitAt (s : String) : List String := (splitChars '@' s.data).map String.mk

/-- Go `strings.Contains(s, ".")`. -/
def containsDot (s : String) : Bool := s.data.contains '.'

/-- A value of Go `time.Time`, as nanoseconds since the Unix epoch. -/
abbrev Time := Int

/-! ## models.go -/

structure User where
  ID : String
  SecretCode : String
  Name : String
  Email : String
  Complaints : List String
  IsAdmin : Bool
deriving DecidableEq, Repr

structure Complaint where
  ID : String
  Title : String
  Summary : String
  Rating : Int
  UserID : String
  UserName : String
  Status : String
  CreatedAt : Time
  ResolvedAt : Option Time
deriving DecidableEq, Repr

structure RegisterRequest where
  Name : String
  Email : String
deriving DecidableEq, Repr

structure RegisterResponse where
  ID : String
  SecretCode : String
  Name : String
  Email : String
deriving DecidableEq, Repr

structure LoginRequest where
  SecretCode : String
deriving DecidableEq, Repr

structure LoginResponse where
  ID : String
  SecretCode : String
  Name : String
  Email : String
  Complaints : List String
  IsAdmin : Bool
deriving DecidableEq, Repr

structure SubmitComplaintRequest where
  SecretCode : String
  Title : String
  Summary : String
  Rating : Int
deriving DecidableEq, Repr

structure GetComplaintsRequest where
  SecretCode : String
deriving DecidableEq, Repr

structure ViewComplaintRequest where
  SecretCode : String
  ComplaintID : String
deriving DecidableEq, Repr

structure ResolveComplaintRequest where
  SecretCode : String
  ComplaintID : String
deriving DecidableEq, Repr

/-! ## main.go: the process state -/

/-- The package-level variables `users`, `complaints` and `idCounter`. -/
structure Store where
  users : GoMap User
  complaints : GoMap Complaint
  idCounter : Int
deriving DecidableEq, Repr

/-- What a handler reads from outside the store: the clock and the outcome of
`rand.Read` on an 8-byte buffer (`none` when it returns an error). -/
structure Env where
  now : Time
  rand : Option { l : List (Fin 256) // l.length = 8 }
deriving DecidableEq

/-- An incoming HTTP request: its method and its JSON body after decoding
(`none` when `Decode` returns an error). -/
structure HttpRequest (β : Type) where
  method : String
  body : Option β

/-- What `sendError` and `sendJSON` encode into the response body. -/
inductive Payload where
  | error (errType msg : String)
  | registered (r : RegisterResponse)
  | loggedIn (r : LoginResponse)
  | complaint (c : Complaint)
  | complaintList (l : List Complaint)
deriving DecidableEq, Repr

/-- An HTTP response: status code and encoded payload. -/
structure Response where
  status : Nat
  payload : Payload
deriving DecidableEq, Repr

/-- Go `sendError`. -/
def sendError (code : Nat) (errType msg : String) : Response :=
  ⟨code, Payload.error errType msg⟩

/-- Go `sendJSON`. -/
def sendJSON (code : Nat) (data : Payload) : Response := ⟨code, data⟩

/-! ## utils.go -/

/-- Go `generateID`: increment the counter and print it. -/
def generateID (s : Store) : Store × String :=
  let c := wrapInt64 (s.idCounter + 1)
  ({ s with idCounter := c }, itoa c)

/-- Go `generateSecretCode`. -/
def generateSecretCode (env : Env) : String :=
  match env.rand with
  | none => "SC" ++ itoa env.now
  | some bytes => toUpper (hexEncodeToString bytes.val)

/-- Go `generateComplaintID`. -/
def generateComplaintID (s : Store) : Store × String :=
  let r := generateID s
  (r.1, "C" ++ r.2)

/-- Go `authenticateUser`. -/
def authenticateUser (s : Store) (secretCode : String) : Except String User :=
  if secretCode = "" then Except.error "secret code required"
  else
    match mapGet s.users secretCode with
    | none => Except.error "invalid secret code"
    | some user => Except.ok user

/-- Go `isAdmin`. -/
def isAdmin (user : User) : Bool := user.IsAdmin

/-- Go `validateEmail`. -/
def validateEmail (email : String) : Bool :=
  if email = "" then false
  else
    match splitAt email with
    | [p0, p1] => if p0 = "" || p1 = "" then false else containsDot p1
    | _ => false

/-- Go `validateName`. -/
def validateName (name : String) : Bool :=
  let name := trimSpace name
  decide (len name > 0) && decide (len name ≤ 100)

/-- Go `validateComplaintTitle`. -/
def validateComplaintTitle (title : String) : Bool :=
  let title := trimSpace title
  decide (len title > 0) && decide (len title ≤ 200)

/-- Go `validateComplaintSummary`. -/
def validateComplaintSummary (summary : String) : Bool :=
  let summary := trimSpace summary
  decide (len summary > 0) && decide (len summary ≤ 1000)

/-- Go `validateRating`. -/
def validateRating (rating : Int) : Bool :=
  decide (rating ≥ 1) && decide (rating ≤ 10)

/-- Go `emailExists`: scan every entry of `users`. -/
def emailExists (s : Store) (email : String) : Bool :=
  s.users.any (fun kv => decide (kv.2.Email = email))

/-- Go `getComplaintByID`. -/
def getComplaintByID (s : Store) (complaintID : String) : Except String Complaint :=
  match mapGet s.complaints complaintID with
  | none => Except.error "complaint not found"
  | some complaint => Except.ok complaint

/-- Go `canViewComplaint`. -/
def canViewComplaint (user : User) (complaint : Complaint) : Bool :=
  if user.IsAdmin then true
  else decide (complaint.UserID = user.ID)

/-! ## handlers.go -/

/-- Go `handleRegister`. -/
def handleRegister (s : Store) (env : Env) (r : HttpRequest RegisterRequest) :
    Store × Response :=
  if r.method ≠ "POST" then
    (s, sendError 405 "method_not_allowed" "Only POST allowed")
  else
    match r.body with
    | none => (s, sendError 400 "invalid_json" "Invalid JSON")
    | some req =>
      if !validateName req.Name then
        (s, sendError 400 "invalid_name" "Name required")
      else if !validateEmail req.Email then
        (s, sendError 400 "invalid_email" "Invalid email")
      else if emailExists s req.Email then
        (s, sendError 409 "email_exists" "Email already exists")
      else
        let g := generateID s
        let user : User :=
          { ID := g.2
            SecretCode := generateSecretCode env
            Name := req.Name
            Email := req.Email
            Complaints := []
            IsAdmin := false }
        let s2 : Store := { g.1 with users := mapSet g.1.users user.SecretCode user }
        (s2, sendJSON 201 (Payload.registered
          { ID := user.ID, SecretCode := user.SecretCode, Name := user.Name,
            Email := user.Email }))

/-- Go `handleLogin`. -/
def handleLogin (s : Store) (r : HttpRequest LoginRequest) : Store × Response :=
  if r.method ≠ "POST" then
    (s, sendError 405 "method_not_allowed" "Only POST method is allowed")
  else
    match r.body with
    | none => (s, sendError 400 "invalid_json" "Invalid JSON in request body")
    | some req =>
      match authenticateUser s req.SecretCode with
      | Except.error e => (s, sendError 401 "authentication_failed" e)
      | Except.ok user =>
        (s, sendJSON 200 (Payload.loggedIn
          { ID := user.ID, SecretCode := user.SecretCode, Name := user.Name,
            Email := user.Email, Complaints := user.Complaints,
            IsAdmin := user.IsAdmin }))

/-- Go `handleSubmitComplaint`.  The `user` pointer was read from
`users[req.SecretCode]`, so the append to `user.Complaints` lands on that
entry. -/
def handleSubmitComplaint (s : Store) (env : Env)
    (r : HttpRequest SubmitComplaintRequest) : Store × Response :=
  if r.method ≠ "POST" then
    (s, sendError 405 "method_not_allowed" "Only POST method is allowed")
  else
    match r.body with
    | none => (s, sendError 400 "invalid_json" "Invalid JSON in request body")
    | some req =>
      match authenticateUser s req.SecretCode with
      | Except.error e => (s, sendError 401 "authentication_failed" e)
      | Except.ok user =>
        if !validateComplaintTitle req.Title then
          (s, sendError 400 "invalid_title"
            "Title is required and must be less than 200 characters")
        else if !validateComplaintSummary req.Summary then
          (s, sendError 400 "invalid_summary"
            "Summary is required and must be less than 1000 characters")
        else if !validateRating req.Rating then
          (s, sendError 400 "invalid_rating" "Rating must be between 1 and 10")
        else
          let g := generateComplaintID s
          let complaint : Complaint :=
            { ID := g.2
              Title := req.Title
              Summary := req.Summary
              Rating := req.Rating
              UserID := user.ID
              UserName := user.Name
              Status := "pending"
              CreatedAt := env.now
              ResolvedAt := none }
          let s2 : Store :=
            { g.1 with complaints := mapSet g.1.complaints complaint.ID complaint }
          let s3 : Store :=
            { s2 with
              users := mapSet s2.users req.SecretCode
                { user with Complaints := user.Complaints ++ [complaint.ID] } }
          (s3, sendJSON 201 (Payload.complaint complaint))

/-- The loop of `handleGetAllComplaintsForUser`: the stored complaint of every
id of the list, ids without an entry skipped. -/
def collectComplaints (complaints : GoMap Complaint) : List String → List Complaint
  | [] => []
  | complaintID :: rest =>
    match mapGet complaints complaintID with
    | some complaint => complaint :: collectComplaints complaints rest
    | none => collectComplaints complaints rest

/-- Go `handleGetAllComplaintsForUser`. -/
def handleGetAllComplaintsForUser (s : Store) (r : HttpRequest GetComplaintsRequest) :
    Store × Response :=
  if r.method ≠ "POST" then
    (s, sendError 405 "method_not_allowed" "Only POST method is allowed")
  else
    match r.body with
    | none => (s, sendError 400 "invalid_json" "Invalid JSON in request body")
    | some req =>
      match authenticateUser s req.SecretCode with
      | Except.error e => (s, sendError 401 "authentication_failed" e)
      | Except.ok user =>
        (s, sendJSON 200 (Payload.complaintList
          (collectComplaints s.complaints user.Complaints)))

/-- Go `handleGetAllComplaintsForAdmin`; the iteration order of the map is the
order of the association list. -/
def handleGetAllComplaintsForAdmin (s : Store) (r : HttpRequest GetComplaintsRequest) :
    Store × Response :=
  if r.method ≠ "POST" then
    (s, sendError 405 "method_not_allowed" "Only POST method is allowed")
  else
    match r.body with
    | none => (s, sendError 400 "invalid_json" "Invalid JSON in request body")
    | some req =>
      match authenticateUser s req.SecretCode with
      | Except.error e => (s, sendError 401 "authentication_failed" e)
      | Except.ok user =>
        if !isAdmin user then
          (s, sendError 403 "access_denied"
            "Only administrators can access this endpoint")
        else
          (s, sendJSON 200 (Payload.complaintList (s.complaints.map (fun kv => kv.2))))

/-- Go `handleViewComplaint`. -/
def handleViewComplaint (s : Store) (r : HttpRequest ViewComplaintRequest) :
    Store × Response :=
  if r.method ≠ "POST" then
    (s, sendError 405 "method_not_allowed" "Only POST method is allowed")
  else
    match r.body with
    | none => (s, sendError 400 "invalid_json" "Invalid JSON in request body")
    | some req =>
      match authenticateUser s req.SecretCode with
      | Except.error e => (s, sendError 401 "authentication_failed" e)
      | Except.ok user =>
        match getComplaintByID s req.ComplaintID with
        | Except.error e => (s, sendError 404 "complaint_not_found" e)
        | Except.ok complaint =>
          if !canViewComplaint user complaint then
            (s, sendError 403 "access_denied" "You can only view your own complaints")
          else
            (s, sendJSON 200 (Payload.complaint complaint))

/-- Go `handleResolveComplaint`.  The `complaint` pointer was read from
`complaints[req.ComplaintID]`, so the two field writes land on that entry. -/
def handleResolveComplaint (s : Store) (env : Env)
    (r : HttpRequest ResolveComplaintRequest) : Store × Response :=
  if r.method ≠ "POST" then
    (s, sendError 405 "method_not_allowed" "Only POST method is allowed")
  else
    match r.body with
    | none => (s, sendError 400 "invalid_json" "Invalid JSON in request body")
    | some req =>
      match authenticateUser s req.SecretCode with
      | Except.error e => (s, sendError 401 "authentication_failed" e)
      | Except.ok user =>
        if !isAdmin user then
          (s, sendError 403 "access_denied" "Only administrators can resolve complaints")
        else
          match getComplaintByID s req.ComplaintID with
          | Except.error e => (s, sendError 404 "complaint_not_found" e)
          | Except.ok complaint =>
            if complaint.Status = "resolved" then
              (s, sendError 400 "already_resolved" "Complaint is already resolved")
            else
              let resolved : Complaint :=
                { complaint with Status := "resolved", ResolvedAt := some env.now }
              ({ s with complaints := mapSet s.complaints req.ComplaintID resolved },
                sendJSON 200 (Payload.complaint resolved))

/-! ## main.go: start-up and routing -/

/-- Go `initializeAdminUser`. -/
def initializeAdminUser (s : Store) : Store :=
  let g := generateID s
  let admin : User :=
    { ID := g.2
      SecretCode := "ADMIN123"
      Name := "Admin User"
      Email := "admin@bugsmirror.com"
      Complaints := []
      IsAdmin := true }
  { g.1 with users := mapSet g.1.users admin.SecretCode admin }

/-- The package-level variables as declared: empty maps, counter zero. -/
def emptyStore : Store := { users := [], complaints := [], idCounter := 0 }

/-- The store when `main` starts serving: after `initializeAdminUser`. -/
def initStore : Store := initializeAdminUser emptyStore

/-- A request routed by `main` to one of the seven handlers. -/
inductive Request where
  | register (r : HttpRequest RegisterRequest)
  | login (r : HttpRequest LoginRequest)
  | submitComplaint (r : HttpRequest SubmitComplaintRequest)
  | getAllComplaintsForUser (r : HttpRequest GetComplaintsRequest)
  | getAllComplaintsForAdmin (r : HttpRequest GetComplaintsRequest)
  | viewComplaint (r : HttpRequest ViewComplaintRequest)
  | resolveComplaint (r : HttpRequest ResolveComplaintRequest)

/-- One served request together with what the handler reads from outside. -/
structure Event where
  env : Env
  req : Request

/-- The routing table of `main`: run the handler registered for the request. -/
def handle (s : Store) (e : Event) : Store × Response :=
  match e.req with
  | Request.register r => handleRegister s e.env r
  | Request.login r => handleLogin s r
  | Request.submitComplaint r => handleSubmitComplaint s e.env r
  | Request.getAllComplaintsForUser r => handleGetAllComplaintsForUser s r
  | Request.getAllComplaintsForAdmin r => handleGetAllComplaintsForAdmin s r
  | Request.viewComplaint r => handleViewComplaint s r
  | Request.resolveComplaint r => handleResolveComplaint s e.env r

/-- The store after serving the events of `tr` one after the other from `s`. -/
def run (s : Store) (tr : List Event) : Store :=
  tr.foldl (fun st e => (handle st e).1) s

/-- The responses given to the events of `tr` served one after the other from `s`. -/
def responses : Store → List Event → List Response
  | _, [] => []
  | s, e :: tr => (handle s e).2 :: responses (handle s e).1 tr

/-! ## Vocabulary of the properties -/

/-- The number a list of decimal digit characters stands for. -/
def decValue (l : List Char) : Nat := l.foldl (fun a c => a * 10 + (c.toNat - 48)) 0

/-- The string `x` is an identifier already handed out by `generateID` when the
counter stands at `c`: the decimal form of some `n` with `1 ≤ n ≤ c`. -/
def IsId (c : Int) (x : String) : Prop := ∃ n : Int, 1 ≤ n ∧ n ≤ c ∧ x = itoa n

/-- The user record `handleRegister` builds for a request it accepts. -/
def newUser (s : Store) (env : Env) (req : RegisterRequest) : User :=
  { ID := itoa (wrapInt64 (s.idCounter + 1))
    SecretCode := generateSecretCode env
    Name := req.Name
    Email := req.Email
    Complaints := []
    IsAdmin := false }

/-- The store `handleRegister` leaves behind for a request it accepts. -/
def registeredStore (s : Store) (env : Env) (req : RegisterRequest) : Store :=
  { users := mapSet s.users (generateSecretCode env) (newUser s env req)
    complaints := s.complaints
    idCounter := wrapInt64 (s.idCounter + 1) }

/-- The complaint record `handleSubmitComplaint` builds for a request of `user`
it accepts. -/
def newComplaint (s : Store) (env : Env) (req : SubmitComplaintRequest) (user : User) :
    Complaint :=
  { ID := "C" ++ itoa (wrapInt64 (s.idCounter + 1))
    Title := req.Title
    Summary := req.Summary
    Rating := req.Rating
    UserID := user.ID
    UserName := user.Name
    Status := "pending"
    CreatedAt := env.now
    ResolvedAt := none }

/-- The store `handleSubmitComplaint` leaves behind for a request of `user` it
accepts. -/
def submittedStore (s : Store) (env : Env) (req : SubmitComplaintRequest) (user : User) :
    Store :=
  { users := mapSet s.users req.SecretCode
      { user with
        Complaints := user.Complaints ++ ["C" ++ itoa (wrapInt64 (s.idCounter + 1))] }
    complaints := mapSet s.complaints ("C" ++ itoa (wrapInt64 (s.idCounter + 1)))
      (newComplaint s env req user)
    idCounter := wrapInt64 (s.idCounter + 1) }

/-- The complaint record `handleResolveComplaint` writes back. -/
def resolvedComplaint (env : Env) (complaint : Complaint) : Complaint :=
  { complaint with Status := "resolved", ResolvedAt := some env.now }

/-- The store `handleResolveComplaint` leaves behind when it resolves
`complaint`, found under `cid`. -/
def resolvedStore (s : Store) (env : Env) (cid : String) (complaint : Complaint) : Store :=
  { users := s.users
    complaints := mapSet s.complaints cid (resolvedComplaint env complaint)
    idCounter := s.idCounter }

/-- The consistency conditions every store reached by serving requests
satisfies, as long as the 64-bit counter has not wrapped around. -/
structure Inv (s : Store) : Prop where
  counter_pos : 1 ≤ s.idCounter
  users_nodup : (s.users.map Prod.fst).Nodup
  complaints_nodup : (s.complaints.map Prod.fst).Nodup
  user_key : ∀ k u, mapGet s.users k = some u → u.SecretCode = k ∧ k ≠ ""
  user_id : ∀ k u, mapGet s.users k = some u → IsId s.idCounter u.ID
  user_id_inj : ∀ k1 k2 u1 u2, mapGet s.users k1 = some u1 → mapGet s.users k2 = some u2 →
    u1.ID = u2.ID → k1 = k2
  user_email_inj : ∀ k1 k2 u1 u2, mapGet s.users k1 = some u1 →
    mapGet s.users k2 = some u2 → u1.Email = u2.Email → k1 = k2
  complaint_key : ∀ k cm, mapGet s.complaints k = some cm →
    cm.ID = k ∧ ∃ x, IsId s.idCounter x ∧ k = "C" ++ x
  complaint_owner : ∀ k cm, mapGet s.complaints k = some cm → IsId s.idCounter cm.UserID
  complaint_status : ∀ k cm, mapGet s.complaints k = some cm →
    (cm.Status = "pending" ∧ cm.ResolvedAt = none) ∨
    (cm.Status = "resolved" ∧ ∃ t, cm.ResolvedAt = some t)
  complaint_valid : ∀ k cm, mapGet s.complaints k = some cm →
    validateComplaintTitle cm.Title = true ∧ validateComplaintSummary cm.Summary = true ∧
    validateRating cm.Rating = true
  owned : ∀ k u, mapGet s.users k = some u → ∀ c,
    c ∈ u.Complaints ↔ ∃ cm, mapGet s.complaints c = some cm ∧ cm.UserID = u.ID
  owned_nodup : ∀ k u, mapGet s.users k = some u → u.Complaints.Nodup

/-- The id of the complaint that response `r` reports as created (201 with a
complaint record) for the user with id `uid`, if it does. -/
def createdFor (uid : String) (r : Response) : Option String :=
  match r.status, r.payload with
  | 201, Payload.complaint c => if c.UserID = uid then some c.ID else none
  | _, _ => none

/-- The ids of the complaints that the responses of `log` report as created for
the user with id `uid`, oldest first. -/
def submittedBy (uid : String) (log : List Response) : List String :=
  log.filterMap (createdFor uid)

/-- The part of the consistency conditions that does not depend on the counter:
it holds after any number of requests. -/
structure Shape (s : Store) : Prop where
  users_nodup : (s.users.map Prod.fst).Nodup
  complaints_nodup : (s.complaints.map Prod.fst).Nodup
  user_key : ∀ k u, mapGet s.users k = some u → u.SecretCode = k ∧ k ≠ ""
  user_email_inj : ∀ k1 k2 u1 u2, mapGet s.users k1 = some u1 →
    mapGet s.users k2 = some u2 → u1.Email = u2.Email → k1 = k2
  complaint_key : ∀ k cm, mapGet s.complaints k = some cm → cm.ID = k
  complaint_status : ∀ k cm, mapGet s.complaints k = some cm →
    (cm.Status = "pending" ∧ cm.ResolvedAt = none) ∨
    (cm.Status = "resolved" ∧ ∃ t, cm.ResolvedAt = some t)
  complaint_valid : ∀ k cm, mapGet s.complaints k = some cm →
    validateComplaintTitle cm.Title = true ∧ validateComplaintSummary cm.Summary = true ∧
    validateRating cm.Rating = true

/-- How the owned-complaint lists relate to the responses given so far: each
stored user owns exactly the complaints reported as created for its id, oldest
first, and every created complaint names an id already handed out. -/
structure LogInv (log : List Response) (s : Store) : Prop where
  list_eq : ∀ k u, mapGet s.users k = some u → u.Complaints = submittedBy u.ID log
  log_owner : ∀ r ∈ log, ∀ c, r = ⟨201, Payload.complaint c⟩ → IsId s.idCounter c.UserID

/-- A well-formed POST request carrying the decoded body `b`. -/
def post {β : Type} (b : β) : HttpRequest β := ⟨"POST", some b⟩

/-- The event of serving a well-formed register request. -/
def registerEvent (p : Env × RegisterRequest) : Event := ⟨p.1, Request.register (post p.2)⟩

/-- The secret codes that the responses of `log` hand back to registrants. -/
def returnedCodes (log : List Response) : List String :=
  log.filterMap (fun r =>
    match r.payload with
    | Payload.registered x => some x.SecretCode
    | _ => none)

/-! ## A small concrete run, used to exercise the theorems -/

/-- A clock value and a successful read of eight random bytes. -/
def sampleEnv : Env := ⟨1700000000, some ⟨[1, 2, 3, 4, 5, 6, 7, 8], rfl⟩⟩

/-- Bob registers; he is handed the code `0102030405060708` and the id `2`. -/
def bobRegisters : Event := registerEvent (sampleEnv, ⟨"Bob", "bob@example.com"⟩)

/-- Bob submits a complaint; it gets the id `C3`. -/
def bobSubmits : Event :=
  ⟨sampleEnv, Request.submitComplaint
    (post ⟨"0102030405060708", "Broken login", "Cannot log in since Monday", 5⟩)⟩

/-- The run in which Bob registers and then submits one complaint. -/
def sampleTrace : List Event := [bobRegisters, bobSubmits]

/-- The admin resolves complaint `C3` a hundred seconds later. -/
def adminResolves : Event :=
  ⟨⟨1700000100, none⟩, Request.resolveComplaint (post ⟨"ADMIN123", "C3"⟩)⟩

/-- The seeded administrator, as stored. -/
def adminUser : User :=
  ⟨"1", "ADMIN123", "Admin User", "admin@bugsmirror.com", [], true⟩

/-- Bob's complaint as stored right after its submission. -/
def bobsComplaint : Complaint :=
  ⟨"C3", "Broken login", "Cannot log in since Monday", 5, "2", "Bob", "pending",
    1700000000, none⟩

/-- Carol registers while the entropy source hands out the very bytes it gave
Bob, so she is handed Bob's secret code. -/
def carolRegisters : Event := registerEvent (sampleEnv, ⟨"Carol", "carol@example.com"⟩)

/-- A later registration under Bob's email, with another name and fresh bytes. -/
def robertRegisters : Event :=
  registerEvent (⟨1700000300, some ⟨[9, 10, 11, 12, 13, 14, 15, 16], rfl⟩⟩,
    ⟨"Robert", "bob@example.com"⟩)

/-- Two registrations served with different random bytes. -/
def twoRegistrations : List (Env × RegisterRequest) :=
  [(sampleEnv, ⟨"Bob", "bob@example.com"⟩),
    (⟨1700000300, some ⟨[9, 10, 11, 12, 13, 14, 15, 16], rfl⟩⟩,
      ⟨"Carol", "carol@example.com"⟩)]

/-- The listing of a user's complaints in the words of the specification: the
owned ids in their order, each replaced by the stored record with that id, ids
without a stored record dropped. -/
def ownedRecords (complaints : GoMap Complaint) (ids : List String) : List Complaint :=
  ids.filterMap (fun id => mapGet complaints id)

/-- The shape of a valid email in the words of the specification: `local@domain`
with exactly one `@`, a non-empty local part, a non-empty domain, and at least
one `.` in the domain. -/
def EmailShape (email : String) : Prop :=
  ∃ l d : List Char, email.data = l ++ '@' :: d ∧ '@' ∉ l ∧ '@' ∉ d ∧
    l ≠ [] ∧ d ≠ [] ∧ '.' ∈ d

/-- The identifiers returned by `k` successive calls of `generateID`, oldest
first, with the store the last call leaves. -/
def generateIDs : Nat → Store → Store × List String
  | 0, s => (s, [])
  | k + 1, s =>
    ((generateIDs k (generateID s).1).1,
      (generateID s).2 :: (generateIDs k (generateID s).1).2)

/-- A text of `n + 1` characters: one space followed by `n` letters `a`. -/
def paddedText (n : Nat) : String := String.mk (' ' :: List.replicate n 'a')

/-- A text of `n` characters, each the two-byte letter e-acute (U+00E9). -/
def accentedText (n : Nat) : String := String.mk (List.replicate n (Char.ofNat 233))

/-- Bob submits a complaint whose title is one space followed by 200 letters. -/
def bobSubmitsPadded : Event :=
  ⟨sampleEnv, Request.submitComplaint
    (post ⟨"0102030405060708", paddedText 200, "Cannot log in since Monday", 5⟩)⟩

/-- The form of the identifiers, whatever the counter has done: a user id is a
printed integer and a complaint key is `C` followed by a printed integer. -/
structure IdShape (s : Store) : Prop where
  user_id : ∀ k u, mapGet s.users k = some u → ∃ n : Int, u.ID = itoa n
  complaint_id : ∀ k cm, mapGet s.complaints k = some cm → ∃ n : Int, k = "C" ++ itoa n

/-! ## handlers.go: `handleResolveComplaint` as seen by a concurrent request

`net/http` serves every request on a goroutine of its own.  In
`handleResolveComplaint` the read lock is held only inside `getComplaintByID`
and the write lock only around the two field writes; the test of
`complaint.Status` lies between the two, outside any lock.  The handler is cut
below at the call of `complaintsMutex.Lock()`, the point where another
goroutine may run in between. -/

/-- Where `handleResolveComplaint` stands when it reaches
`complaintsMutex.Lock()`: it has either answered already, or it holds the
pointer read from `complaints[cid]`, whose pointee it saw as `seen`. -/
inductive ResolveProgress where
  | answered (r : Response)
  | holding (cid : String) (seen : Complaint)

/-- The part of `handleResolveComplaint` before `complaintsMutex.Lock()`:
method, body, authentication, admin test, lookup, status test. -/
def resolveCheck (s : Store) (r : HttpRequest ResolveComplaintRequest) : ResolveProgress :=
  if r.method ≠ "POST" then
    ResolveProgress.answered (sendError 405 "method_not_allowed" "Only POST method is allowed")
  else
    match r.body with
    | none =>
      ResolveProgress.answered (sendError 400 "invalid_json" "Invalid JSON in request body")
    | some req =>
      match authenticateUser s req.SecretCode with
      | Except.error e => ResolveProgress.answered (sendError 401 "authentication_failed" e)
      | Except.ok user =>
        if !isAdmin user then
          ResolveProgress.answered
            (sendError 403 "access_denied" "Only administrators can resolve complaints")
        else
          match getComplaintByID s req.ComplaintID with
          | Except.error e => ResolveProgress.answered (sendError 404 "complaint_not_found" e)
          | Except.ok complaint =>
            if complaint.Status = "resolved" then
              ResolveProgress.answered
                (sendError 400 "already_resolved" "Complaint is already resolved")
            else
              ResolveProgress.holding req.ComplaintID complaint

/-- The part of `handleResolveComplaint` from `now := time.Now()` on: the two
field writes through the held pointer, under the write lock, and the answer.
The pointee is the record currently stored under `cid`; were the entry gone,
the writes would land on the detached record `seen`. -/
def resolveWrite (s : Store) (env : Env) (cid : String) (seen : Complaint) :
    Store × Response :=
  match mapGet s.complaints cid with
  | some current =>
    let resolved : Complaint :=
      { current with Status := "resolved", ResolvedAt := some env.now }
    ({ s with complaints := mapSet s.complaints cid resolved },
      sendJSON 200 (Payload.complaint resolved))
  | none =>
    (s, sendJSON 200 (Payload.complaint
      { seen with Status := "resolved", ResolvedAt := some env.now }))

/-- The rest of `handleResolveComplaint` after `resolveCheck`. -/
def resolveFinish (s : Store) (env : Env) : ResolveProgress → Store × Response
  | ResolveProgress.answered r => (s, r)
  | ResolveProgress.holding cid seen => resolveWrite s env cid seen

/-- Two resolve requests served concurrently under the schedule in which both
goroutines run up to `complaintsMutex.Lock()` before either takes the lock,
then the first writes and answers, then the second: the final store and the
two responses. -/
def bothCheckThenWrite (s : Store) (envA envB : Env)
    (rA rB : HttpRequest ResolveComplaintRequest) : Store × Response × Response :=
  let a := resolveFinish s envA (resolveCheck s rA)
  let b := resolveFinish a.1 envB (resolveCheck s rB)
  (b.1, a.2, b.2)

/-- What `generateSecretCode` draws from outside: the eight bytes read from the
entropy source, or, when the read fails, the clock value it falls back on. -/
def entropyOutcome (env : Env) : { l : List (Fin 256) // l.length = 8 } ⊕ Time :=
  match env.rand with
  | some bytes => Sum.inl bytes
  | none => Sum.inr env.now

/-! ## Basic facts about the runtime pieces -/

theorem mapGet_mapSet_same {β : Type} (m : GoMap β) (k : String) (v : β) :
    mapGet (mapSet m k v) k = some v := by
  induction m with
  | nil => simp [mapSet, mapGet]
  | cons hd tl ih =>
    obtain ⟨k', v'⟩ := hd
    by_cases h : k' = k
    · simp [mapSet, mapGet, h]
    · simp [mapSet, mapGet, h, ih]

theorem mapGet_mapSet_ne {β : Type} (m : GoMap β) (k k2 : String) (v : β) (h : k ≠ k2) :
    mapGet (mapSet m k v) k2 = mapGet m k2 := by
  induction m with
  | nil => simp [mapSet, mapGet, h]
  | cons hd tl ih =>
    obtain ⟨k', v'⟩ := hd
    by_cases h1 : k' = k
    · subst h1
      simp [mapSet, mapGet, h]
    · by_cases h2 : k' = k2
      · subst h2
        simp [mapSet, mapGet, h1]
      · simp [mapSet, mapGet, h1, h2, ih]

theorem mapGet_mem {β : Type} (m : GoMap β) (k : String) (v : β)
    (h : mapGet m k = some v) : (k, v) ∈ m := by
  induction m with
  | nil => simp [mapGet] at h
  | cons hd tl ih =>
    obtain ⟨k', v'⟩ := hd
    by_cases h1 : k' = k
    · simp [mapGet, h1] at h
      simp [h1, h]
    · simp [mapGet, h1] at h
      exact List.mem_cons_of_mem _ (ih h)

theorem mem_mapGet {β : Type} (m : GoMap β) (hm : (m.map Prod.fst).Nodup) (k : String)
    (v : β) (h : (k, v) ∈ m) : mapGet m k = some v := by
  induction m with
  | nil => simp at h
  | cons hd tl ih =>
    obtain ⟨k', v'⟩ := hd
    simp only [List.map_cons, List.nodup_cons] at hm
    rcases List.mem_cons.mp h with h1 | h1
    · simp only [Prod.mk.injEq] at h1
      simp [mapGet, h1.1, h1.2]
    · have hne : k' ≠ k := by
        intro hk
        apply hm.1
        subst hk
        exact List.mem_map.mpr ⟨(k', v), h1, rfl⟩
      simp [mapGet, hne, ih hm.2 h1]

theorem keys_mapSet {β : Type} (m : GoMap β) (k : String) (v : β) (x : String) :
    x ∈ (mapSet m k v).map Prod.fst ↔ x = k ∨ x ∈ m.map Prod.fst := by
  induction m with
  | nil => simp [mapSet]
  | cons hd tl ih =>
    obtain ⟨k', v'⟩ := hd
    by_cases h : k' = k
    · subst h
      simp [mapSet]
    · simp only [mapSet, h, if_false, List.map_cons, List.mem_cons, ih]
      tauto

theorem nodup_mapSet {β : Type} (m : GoMap β) (k : String) (v : β)
    (hm : (m.map Prod.fst).Nodup) : ((mapSet m k v).map Prod.fst).Nodup := by
  induction m with
  | nil => simp [mapSet]
  | cons hd tl ih =>
    obtain ⟨k', v'⟩ := hd
    simp only [List.map_cons, List.nodup_cons] at hm
    by_cases h : k' = k
    · subst h
      simpa [mapSet] using hm
    · simp only [mapSet, h, if_false, List.map_cons, List.nodup_cons]
      refine ⟨?_, ih hm.2⟩
      intro hx
      rcases (keys_mapSet tl k v k').mp hx with h1 | h1
      · exact h h1
      · exact hm.1 h1

theorem wrapInt64_eq (x : Int) (h1 : -(2 ^ 63) ≤ x) (h2 : x < 2 ^ 63) : wrapInt64 x = x := by
  unfold wrapInt64
  have h : (x + 2 ^ 63) % 2 ^ 64 = x + 2 ^ 63 := Int.emod_eq_of_lt (by omega) (by omega)
  omega

/-! ## Identifiers are printed injectively -/

theorem digitChar_value (d : Nat) (h : d < 10) : (digitChar d).toNat - 48 = d := by
  interval_cases d <;> rfl

theorem decValue_append (l : List Char) (c : Char) :
    decValue (l ++ [c]) = decValue l * 10 + (c.toNat - 48) := by
  simp [decValue, List.foldl_append]

theorem decValue_decDigits (fuel n : Nat) (h : n < fuel) :
    decValue (decDigits fuel n) = n := by
  induction fuel generalizing n with
  | zero => omega
  | succ fuel ih =>
    unfold decDigits
    by_cases h10 : n < 10
    · rw [if_pos h10]
      have := decValue_append [] (digitChar n)
      simp only [List.nil_append] at this
      rw [this, digitChar_value n h10]
      simp [decValue]
    · rw [if_neg h10, decValue_append, ih (n / 10) (by omega),
        digitChar_value (n % 10) (Nat.mod_lt _ (by decide))]
      omega

theorem natToDec_injective (a b : Nat) (h : natToDec a = natToDec b) : a = b := by
  unfold natToDec at h
  have h2 : decDigits (a + 1) a = decDigits (b + 1) b := congrArg String.data h
  have h3 := congrArg decValue h2
  rwa [decValue_decDigits _ _ (Nat.lt_succ_self a),
    decValue_decDigits _ _ (Nat.lt_succ_self b)] at h3

theorem itoa_injective_nonneg (a b : Int) (ha : 0 ≤ a) (hb : 0 ≤ b)
    (h : itoa a = itoa b) : a = b := by
  unfold itoa at h
  rw [if_neg (by omega), if_neg (by omega)] at h
  have := natToDec_injective _ _ h
  omega

theorem append_left_cancel_string (p x y : String) (h : p ++ x = p ++ y) : x = y := by
  have h2 := congrArg String.data h
  simp only [String.data_append] at h2
  exact String.ext (List.append_cancel_left h2)

theorem IsId.mono {c c2 : Int} {x : String} (h : IsId c x) (hc : c ≤ c2) : IsId c2 x := by
  obtain ⟨n, h1, h2, h3⟩ := h
  exact ⟨n, h1, by omega, h3⟩

theorem IsId.ne_next {c : Int} {x : String} (h : IsId c x) : x ≠ itoa (c + 1) := by
  obtain ⟨n, h1, h2, h3⟩ := h
  intro hx
  have := itoa_injective_nonneg n (c + 1) (by omega) (by omega) (h3 ▸ hx)
  omega

theorem IsId.next (c : Int) (h : 0 ≤ c) : IsId (c + 1) (itoa (c + 1)) :=
  ⟨c + 1, by omega, le_refl _, rfl⟩

theorem generateSecretCode_ne_empty (env : Env) : generateSecretCode env ≠ "" := by
  unfold generateSecretCode
  intro h
  have h2 := congrArg String.data h
  cases hr : env.rand with
  | none =>
    rw [hr] at h2
    simp [String.data_append] at h2
  | some bytes =>
    rw [hr] at h2
    obtain ⟨l, hl⟩ := bytes
    cases l with
    | nil => simp at hl
    | cons b t => simp [toUpper, hexEncodeToString] at h2

/-! ## What one request does to the store -/

theorem handleLogin_fst (s : Store) (r : HttpRequest LoginRequest) :
    (handleLogin s r).1 = s := by
  unfold handleLogin
  split
  · rfl
  · split
    · rfl
    · split <;> rfl

theorem handleGetAllComplaintsForUser_fst (s : Store) (r : HttpRequest GetComplaintsRequest) :
    (handleGetAllComplaintsForUser s r).1 = s := by
  unfold handleGetAllComplaintsForUser
  split
  · rfl
  · split
    · rfl
    · split <;> rfl

theorem handleGetAllComplaintsForAdmin_fst (s : Store)
    (r : HttpRequest GetComplaintsRequest) :
    (handleGetAllComplaintsForAdmin s r).1 = s := by
  unfold handleGetAllComplaintsForAdmin
  split
  · rfl
  · split
    · rfl
    · split
      · rfl
      · split <;> rfl

theorem handleViewComplaint_fst (s : Store) (r : HttpRequest ViewComplaintRequest) :
    (handleViewComplaint s r).1 = s := by
  unfold handleViewComplaint
  split
  · rfl
  · split
    · rfl
    · split
      · rfl
      · split
        · rfl
        · split <;> rfl

theorem handleRegister_cases (s : Store) (env : Env) (r : HttpRequest RegisterRequest) :
    ((handleRegister s env r).1 = s ∧
        ∃ code err msg, (handleRegister s env r).2 = sendError code err msg ∧
          code ≠ 200 ∧ code ≠ 201) ∨
      ∃ req, r = ⟨"POST", some req⟩ ∧ validateName req.Name = true ∧
        validateEmail req.Email = true ∧ emailExists s req.Email = false ∧
        handleRegister s env r = (registeredStore s env req,
          sendJSON 201 (Payload.registered
            { ID := (newUser s env req).ID, SecretCode := generateSecretCode env,
              Name := req.Name, Email := req.Email })) := by
  obtain ⟨method, body⟩ := r
  by_cases hm : method = "POST"
  · subst hm
    cases body with
    | none => exact Or.inl ⟨by simp [handleRegister], _, _, _, by simp [handleRegister]; rfl, by decide, by decide⟩
    | some req =>
      by_cases h1 : validateName req.Name = true
      · by_cases h2 : validateEmail req.Email = true
        · by_cases h3 : emailExists s req.Email = true
          · exact Or.inl ⟨by simp [handleRegister, h1, h2, h3], _, _, _,
              by simp [handleRegister, h1, h2, h3]; rfl, by decide, by decide⟩
          · right
            refine ⟨req, rfl, h1, h2, by simpa using h3, ?_⟩
            simp [handleRegister, h1, h2, h3, registeredStore, newUser, generateID]
        · exact Or.inl ⟨by simp [handleRegister, h1, h2], _, _, _,
            by simp [handleRegister, h1, h2]; rfl, by decide, by decide⟩
      · exact Or.inl ⟨by simp [handleRegister, h1], _, _, _,
          by simp [handleRegister, h1]; rfl, by decide, by decide⟩
  · exact Or.inl ⟨by simp [handleRegister, hm], _, _, _, by simp [handleRegister, hm]; rfl, by decide, by decide⟩

theorem authenticateUser_ok_iff (s : Store) (code : String) (u : User) :
    authenticateUser s code = Except.ok u ↔ code ≠ "" ∧ mapGet s.users code = some u := by
  unfold authenticateUser
  by_cases h : code = ""
  · simp [h]
  · cases hg : mapGet s.users code with
    | none => simp [h]
    | some v => simp [h]

theorem handleSubmitComplaint_cases (s : Store) (env : Env)
    (r : HttpRequest SubmitComplaintRequest) :
    ((handleSubmitComplaint s env r).1 = s ∧
        ∃ code err msg, (handleSubmitComplaint s env r).2 = sendError code err msg ∧
          code ≠ 200 ∧ code ≠ 201) ∨
      ∃ req user, r = ⟨"POST", some req⟩ ∧
        authenticateUser s req.SecretCode = Except.ok user ∧
        validateComplaintTitle req.Title = true ∧
        validateComplaintSummary req.Summary = true ∧
        validateRating req.Rating = true ∧
        handleSubmitComplaint s env r = (submittedStore s env req user,
          sendJSON 201 (Payload.complaint (newComplaint s env req user))) := by
  obtain ⟨method, body⟩ := r
  by_cases hm : method = "POST"
  · subst hm
    cases body with
    | none =>
      exact Or.inl ⟨by simp [handleSubmitComplaint], _, _, _,
        by simp [handleSubmitComplaint]; rfl, by decide, by decide⟩
    | some req =>
      cases ha : authenticateUser s req.SecretCode with
      | error e =>
        exact Or.inl ⟨by simp [handleSubmitComplaint, ha], _, _, _,
          by simp [handleSubmitComplaint, ha]; rfl, by decide, by decide⟩
      | ok user =>
        by_cases h1 : validateComplaintTitle req.Title = true
        · by_cases h2 : validateComplaintSummary req.Summary = true
          · by_cases h3 : validateRating req.Rating = true
            · right
              refine ⟨req, user, rfl, ha, h1, h2, h3, ?_⟩
              simp [handleSubmitComplaint, ha, h1, h2, h3, submittedStore, newComplaint,
                generateComplaintID, generateID]
            · exact Or.inl ⟨by simp [handleSubmitComplaint, ha, h1, h2, h3], _, _, _,
                by simp [handleSubmitComplaint, ha, h1, h2, h3]; rfl, by decide, by decide⟩
          · exact Or.inl ⟨by simp [handleSubmitComplaint, ha, h1, h2], _, _, _,
              by simp [handleSubmitComplaint, ha, h1, h2]; rfl, by decide, by decide⟩
        · exact Or.inl ⟨by simp [handleSubmitComplaint, ha, h1], _, _, _,
            by simp [handleSubmitComplaint, ha, h1]; rfl, by decide, by decide⟩
  · exact Or.inl ⟨by simp [handleSubmitComplaint, hm], _, _, _,
      by simp [handleSubmitComplaint, hm]; rfl, by decide, by decide⟩

theorem handleResolveComplaint_cases (s : Store) (env : Env)
    (r : HttpRequest ResolveComplaintRequest) :
    ((handleResolveComplaint s env r).1 = s ∧
        ∃ code err msg, (handleResolveComplaint s env r).2 = sendError code err msg ∧
          code ≠ 200 ∧ code ≠ 201) ∨
      ∃ req user cm, r = ⟨"POST", some req⟩ ∧
        authenticateUser s req.SecretCode = Except.ok user ∧ user.IsAdmin = true ∧
        mapGet s.complaints req.ComplaintID = some cm ∧ cm.Status ≠ "resolved" ∧
        handleResolveComplaint s env r = (resolvedStore s env req.ComplaintID cm,
          sendJSON 200 (Payload.complaint (resolvedComplaint env cm))) := by
  obtain ⟨method, body⟩ := r
  by_cases hm : method = "POST"
  · subst hm
    cases body with
    | none =>
      exact Or.inl ⟨by simp [handleResolveComplaint], _, _, _,
        by simp [handleResolveComplaint]; rfl, by decide, by decide⟩
    | some req =>
      cases ha : authenticateUser s req.SecretCode with
      | error e =>
        exact Or.inl ⟨by simp [handleResolveComplaint, ha], _, _, _,
          by simp [handleResolveComplaint, ha]; rfl, by decide, by decide⟩
      | ok user =>
        by_cases h1 : user.IsAdmin = true
        · cases hg : mapGet s.complaints req.ComplaintID with
          | none =>
            exact Or.inl ⟨by simp [handleResolveComplaint, ha, h1, isAdmin, getComplaintByID, hg],
              _, _, _,
              by simp [handleResolveComplaint, ha, h1, isAdmin, getComplaintByID, hg]; rfl, by decide, by decide⟩
          | some cm =>
            by_cases h2 : cm.Status = "resolved"
            · exact Or.inl
                ⟨by simp [handleResolveComplaint, ha, h1, isAdmin, getComplaintByID, hg, h2],
                  _, _, _,
                  by simp [handleResolveComplaint, ha, h1, isAdmin, getComplaintByID, hg, h2]
                     rfl, by decide, by decide⟩
            · right
              refine ⟨req, user, cm, rfl, ha, h1, hg, h2, ?_⟩
              simp [handleResolveComplaint, ha, h1, isAdmin, getComplaintByID, hg, h2,
                resolvedStore, resolvedComplaint]
        · exact Or.inl ⟨by simp [handleResolveComplaint, ha, h1, isAdmin], _, _, _,
            by simp [handleResolveComplaint, ha, h1, isAdmin]; rfl, by decide, by decide⟩
  · exact Or.inl ⟨by simp [handleResolveComplaint, hm], _, _, _,
      by simp [handleResolveComplaint, hm]; rfl, by decide, by decide⟩

/-! ## The consistency conditions are kept by every request -/

theorem mapGet_mapSet_cases {β : Type} (m : GoMap β) (k k2 : String) (v x : β)
    (h : mapGet (mapSet m k v) k2 = some x) :
    (k2 = k ∧ x = v) ∨ (k2 ≠ k ∧ mapGet m k2 = some x) := by
  by_cases hk : k = k2
  · subst hk
    rw [mapGet_mapSet_same] at h
    exact Or.inl ⟨rfl, (Option.some.inj h).symm⟩
  · rw [mapGet_mapSet_ne _ _ _ _ hk] at h
    exact Or.inr ⟨fun e => hk e.symm, h⟩

theorem emailExists_false (s : Store) (email : String) (h : emailExists s email = false)
    (k : String) (u : User) (hu : mapGet s.users k = some u) : u.Email ≠ email := by
  intro he
  have hmem := mapGet_mem _ _ _ hu
  have : emailExists s email = true := by
    unfold emailExists
    exact List.any_eq_true.mpr ⟨(k, u), hmem, by simp [he]⟩
  rw [h] at this
  exact Bool.noConfusion this

theorem inv_registered (s : Store) (env : Env) (req : RegisterRequest) (h : Inv s)
    (hc : s.idCounter + 1 < 2 ^ 63) (he : emailExists s req.Email = false) :
    Inv (registeredStore s env req) := by
  have hpos := h.counter_pos
  have hw : wrapInt64 (s.idCounter + 1) = s.idCounter + 1 :=
    wrapInt64_eq _ (by omega) hc
  have hle : s.idCounter ≤ s.idCounter + 1 := by omega
  unfold registeredStore newUser
  rw [hw]
  refine
    { counter_pos := by simp only; omega
      users_nodup := nodup_mapSet _ _ _ h.users_nodup
      complaints_nodup := h.complaints_nodup
      user_key := ?_
      user_id := ?_
      user_id_inj := ?_
      user_email_inj := ?_
      complaint_key := ?_
      complaint_owner := ?_
      complaint_status := h.complaint_status
      complaint_valid := h.complaint_valid
      owned := ?_
      owned_nodup := ?_ }
  · intro k u hu
    rcases mapGet_mapSet_cases _ _ _ _ _ hu with ⟨rfl, rfl⟩ | ⟨_, h2⟩
    · exact ⟨rfl, generateSecretCode_ne_empty env⟩
    · exact h.user_key k u h2
  · intro k u hu
    rcases mapGet_mapSet_cases _ _ _ _ _ hu with ⟨rfl, rfl⟩ | ⟨_, h2⟩
    · exact IsId.next _ (by omega)
    · exact (h.user_id k u h2).mono hle
  · intro k1 k2 u1 u2 h1 h2 hid
    rcases mapGet_mapSet_cases _ _ _ _ _ h1 with ⟨rfl, rfl⟩ | ⟨_, g1⟩ <;>
      rcases mapGet_mapSet_cases _ _ _ _ _ h2 with ⟨rfl, rfl⟩ | ⟨_, g2⟩
    · rfl
    · exact absurd hid.symm (h.user_id k2 u2 g2).ne_next
    · exact absurd hid (h.user_id k1 u1 g1).ne_next
    · exact h.user_id_inj k1 k2 u1 u2 g1 g2 hid
  · intro k1 k2 u1 u2 h1 h2 hem
    rcases mapGet_mapSet_cases _ _ _ _ _ h1 with ⟨rfl, rfl⟩ | ⟨_, g1⟩ <;>
      rcases mapGet_mapSet_cases _ _ _ _ _ h2 with ⟨rfl, rfl⟩ | ⟨_, g2⟩
    · rfl
    · exact absurd hem.symm (emailExists_false s _ he k2 u2 g2)
    · exact absurd hem (emailExists_false s _ he k1 u1 g1)
    · exact h.user_email_inj k1 k2 u1 u2 g1 g2 hem
  · intro k cm hcm
    obtain ⟨h1, x, hx, h2⟩ := h.complaint_key k cm hcm
    exact ⟨h1, x, hx.mono hle, h2⟩
  · intro k cm hcm
    exact (h.complaint_owner k cm hcm).mono hle
  · intro k u hu c
    rcases mapGet_mapSet_cases _ _ _ _ _ hu with ⟨rfl, rfl⟩ | ⟨_, h2⟩
    · constructor
      · intro hmem
        simp at hmem
      · rintro ⟨cm, hcm, hown⟩
        exact absurd hown (h.complaint_owner c cm hcm).ne_next
    · exact h.owned k u h2 c
  · intro k u hu
    rcases mapGet_mapSet_cases _ _ _ _ _ hu with ⟨rfl, rfl⟩ | ⟨_, h2⟩
    · exact List.nodup_nil
    · exact h.owned_nodup k u h2

theorem complaint_id_fresh (s : Store) (h : Inv s) (cm : Complaint) :
    mapGet s.complaints ("C" ++ itoa (s.idCounter + 1)) ≠ some cm := by
  intro hcm
  obtain ⟨_, x, hx, h2⟩ := h.complaint_key _ cm hcm
  exact hx.ne_next (append_left_cancel_string _ _ _ h2).symm

theorem inv_submitted (s : Store) (env : Env) (req : SubmitComplaintRequest) (user : User)
    (h : Inv s) (hc : s.idCounter + 1 < 2 ^ 63)
    (hu : mapGet s.users req.SecretCode = some user)
    (h1 : validateComplaintTitle req.Title = true)
    (h2 : validateComplaintSummary req.Summary = true)
    (h3 : validateRating req.Rating = true) :
    Inv (submittedStore s env req user) := by
  have hpos := h.counter_pos
  have hw : wrapInt64 (s.idCounter + 1) = s.idCounter + 1 :=
    wrapInt64_eq _ (by omega) hc
  have hle : s.idCounter ≤ s.idCounter + 1 := by omega
  have hfresh := complaint_id_fresh s h
  have hold : ∀ k v, mapGet (mapSet s.users req.SecretCode
      { user with Complaints := user.Complaints ++ ["C" ++ itoa (s.idCounter + 1)] }) k
        = some v →
      ∃ v0, mapGet s.users k = some v0 ∧ v.ID = v0.ID ∧ v.Email = v0.Email ∧
        v.SecretCode = v0.SecretCode := by
    intro k v hv
    rcases mapGet_mapSet_cases _ _ _ _ _ hv with ⟨rfl, rfl⟩ | ⟨_, g⟩
    · exact ⟨user, hu, rfl, rfl, rfl⟩
    · exact ⟨v, g, rfl, rfl, rfl⟩
  unfold submittedStore newComplaint
  rw [hw]
  refine
    { counter_pos := by simp only; omega
      users_nodup := nodup_mapSet _ _ _ h.users_nodup
      complaints_nodup := nodup_mapSet _ _ _ h.complaints_nodup
      user_key := ?_
      user_id := ?_
      user_id_inj := ?_
      user_email_inj := ?_
      complaint_key := ?_
      complaint_owner := ?_
      complaint_status := ?_
      complaint_valid := ?_
      owned := ?_
      owned_nodup := ?_ }
  · intro k u hk
    obtain ⟨v0, g, _, _, e3⟩ := hold k u hk
    rw [e3]
    exact h.user_key k v0 g
  · intro k u hk
    obtain ⟨v0, g, e1, _, _⟩ := hold k u hk
    rw [e1]
    exact (h.user_id k v0 g).mono hle
  · intro k1 k2 u1 u2 g1 g2 hid
    obtain ⟨v1, f1, e1, _, _⟩ := hold k1 u1 g1
    obtain ⟨v2, f2, e2, _, _⟩ := hold k2 u2 g2
    exact h.user_id_inj k1 k2 v1 v2 f1 f2 (by rw [← e1, ← e2]; exact hid)
  · intro k1 k2 u1 u2 g1 g2 hem
    obtain ⟨v1, f1, _, e1, _⟩ := hold k1 u1 g1
    obtain ⟨v2, f2, _, e2, _⟩ := hold k2 u2 g2
    exact h.user_email_inj k1 k2 v1 v2 f1 f2 (by rw [← e1, ← e2]; exact hem)
  · intro k cm hcm
    rcases mapGet_mapSet_cases _ _ _ _ _ hcm with ⟨rfl, rfl⟩ | ⟨_, g⟩
    · exact ⟨rfl, _, IsId.next _ (by omega), rfl⟩
    · obtain ⟨g1, x, hx, g2⟩ := h.complaint_key k cm g
      exact ⟨g1, x, hx.mono hle, g2⟩
  · intro k cm hcm
    rcases mapGet_mapSet_cases _ _ _ _ _ hcm with ⟨rfl, rfl⟩ | ⟨_, g⟩
    · exact (h.user_id _ user hu).mono hle
    · exact (h.complaint_owner k cm g).mono hle
  · intro k cm hcm
    rcases mapGet_mapSet_cases _ _ _ _ _ hcm with ⟨rfl, rfl⟩ | ⟨_, g⟩
    · exact Or.inl ⟨rfl, rfl⟩
    · exact h.complaint_status k cm g
  · intro k cm hcm
    rcases mapGet_mapSet_cases _ _ _ _ _ hcm with ⟨rfl, rfl⟩ | ⟨_, g⟩
    · exact ⟨h1, h2, h3⟩
    · exact h.complaint_valid k cm g
  · intro k u hk c
    by_cases hcid : c = "C" ++ itoa (s.idCounter + 1)
    · subst hcid
      rw [mapGet_mapSet_same]
      rcases mapGet_mapSet_cases _ _ _ _ _ hk with ⟨rfl, rfl⟩ | ⟨hne, g⟩
      · simp
      · constructor
        · intro hmem
          obtain ⟨cm, hcm, _⟩ := (h.owned k u g _).mp hmem
          exact absurd hcm (hfresh cm)
        · rintro ⟨cm, hcm, hown⟩
          have hcm2 := (Option.some.inj hcm).symm
          subst hcm2
          exact absurd (h.user_id_inj k req.SecretCode u user g hu hown.symm) hne
    · rw [mapGet_mapSet_ne _ _ _ _ (fun e => hcid e.symm)]
      rcases mapGet_mapSet_cases _ _ _ _ _ hk with ⟨rfl, rfl⟩ | ⟨_, g⟩
      · simp only [List.mem_append, List.mem_singleton, hcid, or_false]
        exact h.owned _ user hu c
      · exact h.owned k u g c
  · intro k u hk
    rcases mapGet_mapSet_cases _ _ _ _ _ hk with ⟨rfl, rfl⟩ | ⟨_, g⟩
    · simp only
      refine List.Nodup.append (h.owned_nodup _ user hu) (List.nodup_singleton _) ?_
      intro a ha hb
      rw [List.mem_singleton] at hb
      subst hb
      obtain ⟨cm, hcm, _⟩ := (h.owned _ user hu _).mp ha
      exact hfresh cm hcm
    · exact h.owned_nodup k u g

theorem inv_resolved (s : Store) (env : Env) (cid : String) (cm : Complaint) (h : Inv s)
    (hcm : mapGet s.complaints cid = some cm) : Inv (resolvedStore s env cid cm) := by
  have hown : ∀ (c w : String),
      (∃ x, mapGet (mapSet s.complaints cid (resolvedComplaint env cm)) c = some x ∧
        x.UserID = w) ↔ ∃ x, mapGet s.complaints c = some x ∧ x.UserID = w := by
    intro c w
    by_cases hk : cid = c
    · subst hk
      rw [mapGet_mapSet_same, hcm]
      simp [resolvedComplaint]
    · rw [mapGet_mapSet_ne _ _ _ _ hk]
  unfold resolvedStore
  refine
    { counter_pos := h.counter_pos
      users_nodup := h.users_nodup
      complaints_nodup := nodup_mapSet _ _ _ h.complaints_nodup
      user_key := h.user_key
      user_id := h.user_id
      user_id_inj := h.user_id_inj
      user_email_inj := h.user_email_inj
      complaint_key := ?_
      complaint_owner := ?_
      complaint_status := ?_
      complaint_valid := ?_
      owned := ?_
      owned_nodup := h.owned_nodup }
  · intro k x hx
    rcases mapGet_mapSet_cases _ _ _ _ _ hx with ⟨rfl, rfl⟩ | ⟨_, g⟩
    · exact h.complaint_key _ cm hcm
    · exact h.complaint_key k x g
  · intro k x hx
    rcases mapGet_mapSet_cases _ _ _ _ _ hx with ⟨rfl, rfl⟩ | ⟨_, g⟩
    · exact h.complaint_owner _ cm hcm
    · exact h.complaint_owner k x g
  · intro k x hx
    rcases mapGet_mapSet_cases _ _ _ _ _ hx with ⟨rfl, rfl⟩ | ⟨_, g⟩
    · exact Or.inr ⟨rfl, env.now, rfl⟩
    · exact h.complaint_status k x g
  · intro k x hx
    rcases mapGet_mapSet_cases _ _ _ _ _ hx with ⟨rfl, rfl⟩ | ⟨_, g⟩
    · exact h.complaint_valid _ cm hcm
    · exact h.complaint_valid k x g
  · intro k u hk c
    rw [hown c u.ID]
    exact h.owned k u hk c

theorem inv_handle (s : Store) (e : Event) (h : Inv s) (hc : s.idCounter + 1 < 2 ^ 63) :
    Inv (handle s e).1 ∧ (handle s e).1.idCounter ≤ s.idCounter + 1 := by
  have hpos := h.counter_pos
  have hw : wrapInt64 (s.idCounter + 1) = s.idCounter + 1 :=
    wrapInt64_eq _ (by omega) hc
  have hsame : Inv s ∧ s.idCounter ≤ s.idCounter + 1 := ⟨h, by omega⟩
  obtain ⟨env, req⟩ := e
  cases req with
  | register r =>
    simp only [handle]
    rcases handleRegister_cases s env r with ⟨h1, _⟩ | ⟨req, _, _, _, he, h1⟩
    · rw [h1]; exact hsame
    · rw [h1]
      exact ⟨inv_registered s env req h hc he, by simp [registeredStore, hw]⟩
  | login r => simp only [handle]; rw [handleLogin_fst]; exact hsame
  | submitComplaint r =>
    simp only [handle]
    rcases handleSubmitComplaint_cases s env r with ⟨h1, _⟩ | ⟨req, u, _, ha, v1, v2, v3, h1⟩
    · rw [h1]; exact hsame
    · rw [h1]
      exact ⟨inv_submitted s env req u h hc ((authenticateUser_ok_iff _ _ _).mp ha).2 v1 v2 v3,
        by simp [submittedStore, hw]⟩
  | getAllComplaintsForUser r =>
    simp only [handle]; rw [handleGetAllComplaintsForUser_fst]; exact hsame
  | getAllComplaintsForAdmin r =>
    simp only [handle]; rw [handleGetAllComplaintsForAdmin_fst]; exact hsame
  | viewComplaint r => simp only [handle]; rw [handleViewComplaint_fst]; exact hsame
  | resolveComplaint r =>
    simp only [handle]
    rcases handleResolveComplaint_cases s env r with ⟨h1, _⟩ | ⟨req, u, cm, _, _, _, hg, _, h1⟩
    · rw [h1]; exact hsame
    · rw [h1]
      exact ⟨inv_resolved s env _ cm h hg, by simp [resolvedStore]⟩

theorem initStore_eq : initStore =
    { users := [("ADMIN123", ⟨"1", "ADMIN123", "Admin User", "admin@bugsmirror.com", [], true⟩)]
      complaints := []
      idCounter := 1 } := by
  decide

theorem inv_initStore : Inv initStore := by
  rw [initStore_eq]
  have hget : ∀ k u, mapGet [("ADMIN123",
      (⟨"1", "ADMIN123", "Admin User", "admin@bugsmirror.com", [], true⟩ : User))] k = some u →
      k = "ADMIN123" ∧ u = ⟨"1", "ADMIN123", "Admin User", "admin@bugsmirror.com", [], true⟩ := by
    intro k u hu
    by_cases hk : "ADMIN123" = k
    · subst hk
      simp [mapGet] at hu
      exact ⟨rfl, hu.symm⟩
    · simp [mapGet, hk] at hu
  refine
    { counter_pos := le_refl _
      users_nodup := by simp
      complaints_nodup := by simp
      user_key := ?_
      user_id := ?_
      user_id_inj := ?_
      user_email_inj := ?_
      complaint_key := by intro k cm hcm; simp [mapGet] at hcm
      complaint_owner := by intro k cm hcm; simp [mapGet] at hcm
      complaint_status := by intro k cm hcm; simp [mapGet] at hcm
      complaint_valid := by intro k cm hcm; simp [mapGet] at hcm
      owned := ?_
      owned_nodup := ?_ }
  · intro k u hu
    obtain ⟨rfl, rfl⟩ := hget k u hu
    exact ⟨rfl, by decide⟩
  · intro k u hu
    obtain ⟨rfl, rfl⟩ := hget k u hu
    exact ⟨1, le_refl _, le_refl _, by decide⟩
  · intro k1 k2 u1 u2 h1 h2 _
    rw [(hget k1 u1 h1).1, (hget k2 u2 h2).1]
  · intro k1 k2 u1 u2 h1 h2 _
    rw [(hget k1 u1 h1).1, (hget k2 u2 h2).1]
  · intro k u hu c
    obtain ⟨rfl, rfl⟩ := hget k u hu
    simp [mapGet]
  · intro k u hu
    obtain ⟨rfl, rfl⟩ := hget k u hu
    exact List.nodup_nil

theorem run_cons (s : Store) (e : Event) (tr : List Event) :
    run s (e :: tr) = run (handle s e).1 tr := rfl

theorem run_append (s : Store) (tr1 tr2 : List Event) :
    run s (tr1 ++ tr2) = run (run s tr1) tr2 := by
  simp [run, List.foldl_append]

theorem inv_run (tr : List Event) (s : Store) (h : Inv s)
    (hc : s.idCounter + tr.length < 2 ^ 63) :
    Inv (run s tr) ∧ (run s tr).idCounter ≤ s.idCounter + tr.length := by
  induction tr generalizing s with
  | nil => exact ⟨h, by simp [run]⟩
  | cons e tr ih =>
    simp only [List.length_cons, Nat.cast_add, Nat.cast_one] at hc ⊢
    obtain ⟨h1, h2⟩ := inv_handle s e h (by omega)
    obtain ⟨h3, h4⟩ := ih (handle s e).1 h1 (by omega)
    rw [run_cons]
    exact ⟨h3, by omega⟩

theorem inv_reachable (tr : List Event) (hc : tr.length + 1 < 2 ^ 63) :
    Inv (run initStore tr) ∧ (run initStore tr).idCounter ≤ tr.length + 1 := by
  have h0 : initStore.idCounter = 1 := by rw [initStore_eq]
  have hc2 : ((tr.length : Int) + 1 < 2 ^ 63) := by exact_mod_cast hc
  obtain ⟨h1, h2⟩ := inv_run tr initStore inv_initStore (by rw [h0]; omega)
  exact ⟨h1, by rw [h0] at h2; omega⟩

theorem shape_registered (s : Store) (env : Env) (req : RegisterRequest) (h : Shape s)
    (he : emailExists s req.Email = false) : Shape (registeredStore s env req) := by
  unfold registeredStore newUser
  refine
    { users_nodup := nodup_mapSet _ _ _ h.users_nodup
      complaints_nodup := h.complaints_nodup
      user_key := ?_
      user_email_inj := ?_
      complaint_key := h.complaint_key
      complaint_status := h.complaint_status
      complaint_valid := h.complaint_valid }
  · intro k u hu
    rcases mapGet_mapSet_cases _ _ _ _ _ hu with ⟨rfl, rfl⟩ | ⟨_, h2⟩
    · exact ⟨rfl, generateSecretCode_ne_empty env⟩
    · exact h.user_key k u h2
  · intro k1 k2 u1 u2 h1 h2 hem
    rcases mapGet_mapSet_cases _ _ _ _ _ h1 with ⟨rfl, rfl⟩ | ⟨_, g1⟩ <;>
      rcases mapGet_mapSet_cases _ _ _ _ _ h2 with ⟨rfl, rfl⟩ | ⟨_, g2⟩
    · rfl
    · exact absurd hem.symm (emailExists_false s _ he k2 u2 g2)
    · exact absurd hem (emailExists_false s _ he k1 u1 g1)
    · exact h.user_email_inj k1 k2 u1 u2 g1 g2 hem

theorem shape_submitted (s : Store) (env : Env) (req : SubmitComplaintRequest) (user : User)
    (h : Shape s) (hu : mapGet s.users req.SecretCode = some user)
    (h1 : validateComplaintTitle req.Title = true)
    (h2 : validateComplaintSummary req.Summary = true)
    (h3 : validateRating req.Rating = true) :
    Shape (submittedStore s env req user) := by
  have hold : ∀ k v, mapGet (mapSet s.users req.SecretCode
      { user with
        Complaints := user.Complaints ++ ["C" ++ itoa (wrapInt64 (s.idCounter + 1))] }) k
        = some v →
      ∃ v0, mapGet s.users k = some v0 ∧ v.Email = v0.Email ∧
        v.SecretCode = v0.SecretCode := by
    intro k v hv
    rcases mapGet_mapSet_cases _ _ _ _ _ hv with ⟨rfl, rfl⟩ | ⟨_, g⟩
    · exact ⟨user, hu, rfl, rfl⟩
    · exact ⟨v, g, rfl, rfl⟩
  unfold submittedStore newComplaint
  refine
    { users_nodup := nodup_mapSet _ _ _ h.users_nodup
      complaints_nodup := nodup_mapSet _ _ _ h.complaints_nodup
      user_key := ?_
      user_email_inj := ?_
      complaint_key := ?_
      complaint_status := ?_
      complaint_valid := ?_ }
  · intro k u hk
    obtain ⟨v0, g, _, e3⟩ := hold k u hk
    rw [e3]
    exact h.user_key k v0 g
  · intro k1 k2 u1 u2 g1 g2 hem
    obtain ⟨v1, f1, e1, _⟩ := hold k1 u1 g1
    obtain ⟨v2, f2, e2, _⟩ := hold k2 u2 g2
    exact h.user_email_inj k1 k2 v1 v2 f1 f2 (by rw [← e1, ← e2]; exact hem)
  · intro k cm hcm
    rcases mapGet_mapSet_cases _ _ _ _ _ hcm with ⟨rfl, rfl⟩ | ⟨_, g⟩
    · rfl
    · exact h.complaint_key k cm g
  · intro k cm hcm
    rcases mapGet_mapSet_cases _ _ _ _ _ hcm with ⟨rfl, rfl⟩ | ⟨_, g⟩
    · exact Or.inl ⟨rfl, rfl⟩
    · exact h.complaint_status k cm g
  · intro k cm hcm
    rcases mapGet_mapSet_cases _ _ _ _ _ hcm with ⟨rfl, rfl⟩ | ⟨_, g⟩
    · exact ⟨h1, h2, h3⟩
    · exact h.complaint_valid k cm g

theorem shape_resolved (s : Store) (env : Env) (cid : String) (cm : Complaint) (h : Shape s)
    (hcm : mapGet s.complaints cid = some cm) : Shape (resolvedStore s env cid cm) := by
  unfold resolvedStore
  refine
    { users_nodup := h.users_nodup
      complaints_nodup := nodup_mapSet _ _ _ h.complaints_nodup
      user_key := h.user_key
      user_email_inj := h.user_email_inj
      complaint_key := ?_
      complaint_status := ?_
      complaint_valid := ?_ }
  · intro k x hx
    rcases mapGet_mapSet_cases _ _ _ _ _ hx with ⟨rfl, rfl⟩ | ⟨_, g⟩
    · exact h.complaint_key _ cm hcm
    · exact h.complaint_key k x g
  · intro k x hx
    rcases mapGet_mapSet_cases _ _ _ _ _ hx with ⟨rfl, rfl⟩ | ⟨_, g⟩
    · exact Or.inr ⟨rfl, env.now, rfl⟩
    · exact h.complaint_status k x g
  · intro k x hx
    rcases mapGet_mapSet_cases _ _ _ _ _ hx with ⟨rfl, rfl⟩ | ⟨_, g⟩
    · exact h.complaint_valid _ cm hcm
    · exact h.complaint_valid k x g

theorem shape_handle (s : Store) (e : Event) (h : Shape s) : Shape (handle s e).1 := by
  obtain ⟨env, req⟩ := e
  cases req with
  | register r =>
    simp only [handle]
    rcases handleRegister_cases s env r with ⟨h1, _⟩ | ⟨req, _, _, _, he, h1⟩
    · rw [h1]; exact h
    · rw [h1]; exact shape_registered s env req h he
  | login r => simp only [handle]; rw [handleLogin_fst]; exact h
  | submitComplaint r =>
    simp only [handle]
    rcases handleSubmitComplaint_cases s env r with ⟨h1, _⟩ | ⟨req, u, _, ha, v1, v2, v3, h1⟩
    · rw [h1]; exact h
    · rw [h1]
      exact shape_submitted s env req u h ((authenticateUser_ok_iff _ _ _).mp ha).2 v1 v2 v3
  | getAllComplaintsForUser r =>
    simp only [handle]; rw [handleGetAllComplaintsForUser_fst]; exact h
  | getAllComplaintsForAdmin r =>
    simp only [handle]; rw [handleGetAllComplaintsForAdmin_fst]; exact h
  | viewComplaint r => simp only [handle]; rw [handleViewComplaint_fst]; exact h
  | resolveComplaint r =>
    simp only [handle]
    rcases handleResolveComplaint_cases s env r with ⟨h1, _⟩ | ⟨req, u, cm, _, _, _, hg, _, h1⟩
    · rw [h1]; exact h
    · rw [h1]; exact shape_resolved s env _ cm h hg

theorem shape_run (tr : List Event) (s : Store) (h : Shape s) : Shape (run s tr) := by
  induction tr generalizing s with
  | nil => exact h
  | cons e tr ih => exact ih _ (shape_handle s e h)

theorem shape_initStore : Shape initStore :=
  { users_nodup := inv_initStore.users_nodup
    complaints_nodup := inv_initStore.complaints_nodup
    user_key := inv_initStore.user_key
    user_email_inj := inv_initStore.user_email_inj
    complaint_key := fun k cm h => (inv_initStore.complaint_key k cm h).1
    complaint_status := inv_initStore.complaint_status
    complaint_valid := inv_initStore.complaint_valid }

theorem shape_reachable (tr : List Event) : Shape (run initStore tr) :=
  shape_run tr initStore shape_initStore

theorem resolved_persists_step (s : Store) (e : Event) (h : Inv s)
    (hc : s.idCounter + 1 < 2 ^ 63) (k : String) (cm : Complaint)
    (hcm : mapGet s.complaints k = some cm) (hres : cm.Status = "resolved") :
    mapGet (handle s e).1.complaints k = some cm := by
  have hpos := h.counter_pos
  have hw : wrapInt64 (s.idCounter + 1) = s.idCounter + 1 :=
    wrapInt64_eq _ (by omega) hc
  obtain ⟨env, req⟩ := e
  cases req with
  | register r =>
    simp only [handle]
    rcases handleRegister_cases s env r with ⟨h1, _⟩ | ⟨req, _, _, _, _, h1⟩
    · rw [h1]; exact hcm
    · rw [h1]; exact hcm
  | login r => simp only [handle]; rw [handleLogin_fst]; exact hcm
  | submitComplaint r =>
    simp only [handle]
    rcases handleSubmitComplaint_cases s env r with ⟨h1, _⟩ | ⟨req, u, _, _, _, _, _, h1⟩
    · rw [h1]; exact hcm
    · rw [h1]
      simp only [submittedStore, hw]
      rw [mapGet_mapSet_ne]
      · exact hcm
      · intro hk
        subst hk
        exact complaint_id_fresh s h cm hcm
  | getAllComplaintsForUser r =>
    simp only [handle]; rw [handleGetAllComplaintsForUser_fst]; exact hcm
  | getAllComplaintsForAdmin r =>
    simp only [handle]; rw [handleGetAllComplaintsForAdmin_fst]; exact hcm
  | viewComplaint r => simp only [handle]; rw [handleViewComplaint_fst]; exact hcm
  | resolveComplaint r =>
    simp only [handle]
    rcases handleResolveComplaint_cases s env r with
      ⟨h1, _⟩ | ⟨req, u, cm0, _, _, _, hg, hnr, h1⟩
    · rw [h1]; exact hcm
    · rw [h1]
      simp only [resolvedStore]
      rw [mapGet_mapSet_ne]
      · exact hcm
      · intro hk
        subst hk
        rw [hcm] at hg
        exact hnr ((Option.some.inj hg) ▸ hres)

theorem resolved_persists (tr : List Event) (s : Store) (h : Inv s)
    (hc : s.idCounter + tr.length < 2 ^ 63) (k : String) (cm : Complaint)
    (hcm : mapGet s.complaints k = some cm) (hres : cm.Status = "resolved") :
    mapGet (run s tr).complaints k = some cm := by
  induction tr generalizing s with
  | nil => exact hcm
  | cons e tr ih =>
    simp only [List.length_cons, Nat.cast_add, Nat.cast_one] at hc
    obtain ⟨h1, h2⟩ := inv_handle s e h (by omega)
    rw [run_cons]
    exact ih _ h1 (by omega) (resolved_persists_step s e h (by omega) k cm hcm hres)

theorem handleRegister_created (s : Store) (env : Env) (r : HttpRequest RegisterRequest)
    (h : (handleRegister s env r).2.status = 201) :
    ∃ req, r = post req ∧ validateName req.Name = true ∧ validateEmail req.Email = true ∧
      emailExists s req.Email = false ∧
      handleRegister s env r = (registeredStore s env req,
        sendJSON 201 (Payload.registered
          { ID := (newUser s env req).ID, SecretCode := generateSecretCode env,
            Name := req.Name, Email := req.Email })) := by
  rcases handleRegister_cases s env r with ⟨_, code, err, msg, h1, _, h3⟩ | h2
  · rw [h1] at h
    exact absurd h h3
  · exact h2

theorem email_persists_step (s : Store) (ev : Event) (code email : String)
    (h : ∃ u, mapGet s.users code = some u ∧ u.Email = email)
    (hcode : code ∉ returnedCodes [(handle s ev).2]) :
    ∃ u, mapGet (handle s ev).1.users code = some u ∧ u.Email = email := by
  obtain ⟨u, hu, hem⟩ := h
  obtain ⟨env, req⟩ := ev
  cases req with
  | register r =>
    simp only [handle] at hcode ⊢
    rcases handleRegister_cases s env r with ⟨h1, _⟩ | ⟨req, _, _, _, _, h1⟩
    · rw [h1]; exact ⟨u, hu, hem⟩
    · rw [h1] at hcode ⊢
      simp only [returnedCodes, sendJSON, List.filterMap_cons, List.filterMap_nil,
        List.mem_singleton] at hcode
      simp only [registeredStore]
      rw [mapGet_mapSet_ne _ _ _ _ (fun e => hcode e.symm)]
      exact ⟨u, hu, hem⟩
  | login r => simp only [handle]; rw [handleLogin_fst]; exact ⟨u, hu, hem⟩
  | submitComplaint r =>
    simp only [handle]
    rcases handleSubmitComplaint_cases s env r with ⟨h1, _⟩ | ⟨req, v, _, hv, _, _, _, h1⟩
    · rw [h1]; exact ⟨u, hu, hem⟩
    · rw [h1]
      simp only [submittedStore]
      by_cases hk : req.SecretCode = code
      · rw [hk, mapGet_mapSet_same]
        have hv2 := ((authenticateUser_ok_iff _ _ _).mp hv).2
        rw [hk, hu] at hv2
        have hv3 := Option.some.inj hv2
        subst hv3
        exact ⟨_, rfl, hem⟩
      · rw [mapGet_mapSet_ne _ _ _ _ hk]
        exact ⟨u, hu, hem⟩
  | getAllComplaintsForUser r =>
    simp only [handle]; rw [handleGetAllComplaintsForUser_fst]; exact ⟨u, hu, hem⟩
  | getAllComplaintsForAdmin r =>
    simp only [handle]; rw [handleGetAllComplaintsForAdmin_fst]; exact ⟨u, hu, hem⟩
  | viewComplaint r => simp only [handle]; rw [handleViewComplaint_fst]; exact ⟨u, hu, hem⟩
  | resolveComplaint r =>
    simp only [handle]
    rcases handleResolveComplaint_cases s env r with ⟨h1, _⟩ | ⟨req, v, cm, _, _, _, _, _, h1⟩
    · rw [h1]; exact ⟨u, hu, hem⟩
    · rw [h1]; exact ⟨u, hu, hem⟩

theorem returnedCodes_cons (r : Response) (log : List Response) :
    returnedCodes (r :: log) = returnedCodes [r] ++ returnedCodes log := by
  simp only [returnedCodes, List.filterMap_cons, List.filterMap_nil]
  split <;> simp

theorem email_persists (tr : List Event) (s : Store) (code email : String)
    (h : ∃ u, mapGet s.users code = some u ∧ u.Email = email)
    (hcode : code ∉ returnedCodes (responses s tr)) :
    ∃ u, mapGet (run s tr).users code = some u ∧ u.Email = email := by
  induction tr generalizing s with
  | nil => exact h
  | cons e tr ih =>
    simp only [responses] at hcode
    rw [returnedCodes_cons, List.mem_append, not_or] at hcode
    rw [run_cons]
    exact ih _ (email_persists_step s e code email h hcode.1) hcode.2

theorem user_persists_registers (regs : List (Env × RegisterRequest)) (s : Store)
    (code : String) (u : User) (hu : mapGet s.users code = some u)
    (hcode : code ∉ regs.map (fun p => generateSecretCode p.1)) :
    mapGet (run s (regs.map registerEvent)).users code = some u := by
  induction regs generalizing s with
  | nil => exact hu
  | cons p regs ih =>
    simp only [List.map_cons, List.mem_cons, not_or] at hcode
    rw [List.map_cons, run_cons]
    apply ih _ _ hcode.2
    simp only [registerEvent, handle]
    rcases handleRegister_cases s p.1 (post p.2) with ⟨h1, _⟩ | ⟨req, _, _, _, _, h1⟩
    · rw [h1]; exact hu
    · rw [h1]
      simp only [registeredStore]
      rw [mapGet_mapSet_ne _ _ _ _ (fun e => hcode.1 e.symm)]
      exact hu

theorem handleLogin_ok (s : Store) (code : String) (u : User) (hc : code ≠ "")
    (hu : mapGet s.users code = some u) :
    handleLogin s (post ⟨code⟩) =
      (s, ⟨200, Payload.loggedIn ⟨u.ID, u.SecretCode, u.Name, u.Email, u.Complaints,
        u.IsAdmin⟩⟩) := by
  have ha := (authenticateUser_ok_iff s code u).mpr ⟨hc, hu⟩
  simp [handleLogin, post, ha, sendJSON]

/-! ## Owned-complaint lists and the responses given -/

theorem handleLogin_status (s : Store) (r : HttpRequest LoginRequest) :
    (handleLogin s r).2.status ≠ 201 := by
  unfold handleLogin
  repeat' split
  all_goals simp [sendError, sendJSON]

theorem handleGetAllComplaintsForUser_status (s : Store)
    (r : HttpRequest GetComplaintsRequest) :
    (handleGetAllComplaintsForUser s r).2.status ≠ 201 := by
  unfold handleGetAllComplaintsForUser
  repeat' split
  all_goals simp [sendError, sendJSON]

theorem handleGetAllComplaintsForAdmin_status (s : Store)
    (r : HttpRequest GetComplaintsRequest) :
    (handleGetAllComplaintsForAdmin s r).2.status ≠ 201 := by
  unfold handleGetAllComplaintsForAdmin
  repeat' split
  all_goals simp [sendError, sendJSON]

theorem handleViewComplaint_status (s : Store) (r : HttpRequest ViewComplaintRequest) :
    (handleViewComplaint s r).2.status ≠ 201 := by
  unfold handleViewComplaint
  repeat' split
  all_goals simp [sendError, sendJSON]

theorem handle_cases (s : Store) (e : Event) :
    ((handle s e).1 = s ∧ ∀ c, (handle s e).2 ≠ ⟨201, Payload.complaint c⟩) ∨
    (∃ env req, emailExists s req.Email = false ∧
      handle s e = (registeredStore s env req,
        ⟨201, Payload.registered ⟨(newUser s env req).ID, generateSecretCode env, req.Name,
          req.Email⟩⟩)) ∨
    (∃ env req u, mapGet s.users req.SecretCode = some u ∧
      handle s e = (submittedStore s env req u,
        ⟨201, Payload.complaint (newComplaint s env req u)⟩)) ∨
    (∃ env cid cm, mapGet s.complaints cid = some cm ∧
      handle s e = (resolvedStore s env cid cm,
        ⟨200, Payload.complaint (resolvedComplaint env cm)⟩)) := by
  have hstatus : ∀ (r : Response), r.status ≠ 201 → ∀ c, r ≠ ⟨201, Payload.complaint c⟩ := by
    intro r hr c hc
    rw [hc] at hr
    exact hr rfl
  have herr : ∀ (r : Response), (∃ code err msg, r = sendError code err msg ∧
      code ≠ 200 ∧ code ≠ 201) → ∀ c, r ≠ ⟨201, Payload.complaint c⟩ := by
    rintro r ⟨code, err, msg, h1, _, h3⟩ c hc
    rw [h1] at hc
    simp [sendError] at hc
  obtain ⟨env, req⟩ := e
  cases req with
  | register r =>
    simp only [handle]
    rcases handleRegister_cases s env r with ⟨h1, h2⟩ | ⟨req, _, _, _, he, h1⟩
    · exact Or.inl ⟨h1, herr _ h2⟩
    · exact Or.inr (Or.inl ⟨env, req, he, h1⟩)
  | login r =>
    exact Or.inl ⟨handleLogin_fst s r, hstatus _ (handleLogin_status s r)⟩
  | submitComplaint r =>
    simp only [handle]
    rcases handleSubmitComplaint_cases s env r with ⟨h1, h2⟩ | ⟨req, u, _, ha, _, _, _, h1⟩
    · exact Or.inl ⟨h1, herr _ h2⟩
    · exact Or.inr (Or.inr (Or.inl
        ⟨env, req, u, ((authenticateUser_ok_iff _ _ _).mp ha).2, h1⟩))
  | getAllComplaintsForUser r =>
    exact Or.inl ⟨handleGetAllComplaintsForUser_fst s r,
      hstatus _ (handleGetAllComplaintsForUser_status s r)⟩
  | getAllComplaintsForAdmin r =>
    exact Or.inl ⟨handleGetAllComplaintsForAdmin_fst s r,
      hstatus _ (handleGetAllComplaintsForAdmin_status s r)⟩
  | viewComplaint r =>
    exact Or.inl ⟨handleViewComplaint_fst s r, hstatus _ (handleViewComplaint_status s r)⟩
  | resolveComplaint r =>
    simp only [handle]
    rcases handleResolveComplaint_cases s env r with
      ⟨h1, h2⟩ | ⟨req, u, cm, _, _, _, hg, _, h1⟩
    · exact Or.inl ⟨h1, herr _ h2⟩
    · exact Or.inr (Or.inr (Or.inr ⟨env, _, cm, hg, h1⟩))

theorem responses_append (s : Store) (tr1 tr2 : List Event) :
    responses s (tr1 ++ tr2) = responses s tr1 ++ responses (run s tr1) tr2 := by
  induction tr1 generalizing s with
  | nil => rfl
  | cons e tr ih =>
    show (handle s e).2 :: responses (handle s e).1 (tr ++ tr2) = _
    rw [ih]
    rfl

theorem submittedBy_append (uid : String) (l1 l2 : List Response) :
    submittedBy uid (l1 ++ l2) = submittedBy uid l1 ++ submittedBy uid l2 := by
  simp [submittedBy, List.filterMap_append]

theorem submittedBy_created (uid : String) (c : Complaint) :
    submittedBy uid [⟨201, Payload.complaint c⟩] = if c.UserID = uid then [c.ID] else [] := by
  by_cases h : c.UserID = uid <;> simp [submittedBy, createdFor, h]

theorem createdFor_other (uid : String) (r : Response)
    (h : ∀ c, r ≠ ⟨201, Payload.complaint c⟩) : createdFor uid r = none := by
  obtain ⟨status, payload⟩ := r
  unfold createdFor
  split
  · rename_i c h1 h2
    simp only at h1 h2
    subst h1 h2
    exact absurd rfl (h c)
  · rfl

theorem submittedBy_other (uid : String) (r : Response)
    (h : ∀ c, r ≠ ⟨201, Payload.complaint c⟩) : submittedBy uid [r] = [] := by
  simp [submittedBy, createdFor_other uid r h]

theorem submittedBy_eq_nil (uid : String) (log : List Response)
    (h : ∀ r ∈ log, ∀ c, r = ⟨201, Payload.complaint c⟩ → c.UserID ≠ uid) :
    submittedBy uid log = [] := by
  induction log with
  | nil => rfl
  | cons r log ih =>
    have hcons : submittedBy uid (r :: log) = submittedBy uid [r] ++ submittedBy uid log :=
      submittedBy_append uid [r] log
    rw [hcons, ih (fun r2 hr2 => h r2 (List.mem_cons_of_mem _ hr2)), List.append_nil]
    have hr := h r (List.mem_cons_self _ _)
    by_cases hc : ∃ c, r = ⟨201, Payload.complaint c⟩
    · obtain ⟨c, rfl⟩ := hc
      rw [submittedBy_created, if_neg (hr c rfl)]
    · exact submittedBy_other uid r (fun c e => hc ⟨c, e⟩)

theorem loginv_step (s : Store) (e : Event) (log : List Response) (h : Inv s)
    (hl : LogInv log s) (hc : s.idCounter + 1 < 2 ^ 63) :
    LogInv (log ++ [(handle s e).2]) (handle s e).1 := by
  have hpos := h.counter_pos
  have hw : wrapInt64 (s.idCounter + 1) = s.idCounter + 1 :=
    wrapInt64_eq _ (by omega) hc
  have hle : s.idCounter ≤ s.idCounter + 1 := by omega
  have hquiet : ∀ (r : Response) (s2 : Store), (∀ c, r ≠ ⟨201, Payload.complaint c⟩) →
      s.idCounter ≤ s2.idCounter →
      (∀ k u, mapGet s2.users k = some u → u.Complaints = submittedBy u.ID log) →
      LogInv (log ++ [r]) s2 := by
    intro r s2 hr hcnt hus
    constructor
    · intro k u hu
      rw [submittedBy_append, submittedBy_other _ r hr, List.append_nil]
      exact hus k u hu
    · intro r2 hr2 c hc2
      rcases List.mem_append.mp hr2 with h1 | h1
      · exact (hl.log_owner r2 h1 c hc2).mono hcnt
      · rw [List.mem_singleton] at h1
        exact absurd (h1 ▸ hc2) (hr c)
  rcases handle_cases s e with ⟨h1, h2⟩ | ⟨env, req, _, h1⟩ | ⟨env, req, u, hu, h1⟩ |
    ⟨env, cid, cm, _, h1⟩
  · rw [h1]
    exact hquiet _ s h2 (le_refl _) hl.list_eq
  · rw [h1]
    refine hquiet _ _ (by intro c hc2; simp at hc2) (by simp [registeredStore, hw]) ?_
    intro k v hv
    simp only [registeredStore] at hv
    rcases mapGet_mapSet_cases _ _ _ _ _ hv with ⟨_, rfl⟩ | ⟨_, g⟩
    · simp only [newUser, hw]
      symm
      apply submittedBy_eq_nil
      intro r hr c hc2
      exact (hl.log_owner r hr c hc2).ne_next
    · exact hl.list_eq k v g
  · rw [h1]
    constructor
    · intro k v hv
      rw [submittedBy_append, submittedBy_created]
      simp only [submittedStore] at hv
      rcases mapGet_mapSet_cases _ _ _ _ _ hv with ⟨_, rfl⟩ | ⟨hne, g⟩
      · simp only [newComplaint, if_true]
        rw [hl.list_eq _ u hu]
      · have hid : (newComplaint s env req u).UserID ≠ v.ID := by
          intro hid
          exact hne (h.user_id_inj k req.SecretCode v u g hu hid.symm)
        rw [if_neg hid, List.append_nil]
        exact hl.list_eq k v g
    · intro r2 hr2 c hc2
      have hcnt : s.idCounter ≤ (submittedStore s env req u).idCounter := by
        simp [submittedStore, hw]
      rcases List.mem_append.mp hr2 with g | g
      · exact (hl.log_owner r2 g c hc2).mono hcnt
      · rw [List.mem_singleton] at g
        rw [g] at hc2
        simp only [Response.mk.injEq, Payload.complaint.injEq, true_and] at hc2
        rw [← hc2]
        exact (h.user_id _ u hu).mono hcnt
  · rw [h1]
    exact hquiet _ _ (by intro c hc2; simp at hc2) (by simp [resolvedStore]) hl.list_eq

theorem loginv_initStore : LogInv [] initStore := by
  constructor
  · intro k u hu
    rw [initStore_eq] at hu
    by_cases hk : "ADMIN123" = k
    · simp [mapGet, hk] at hu
      rw [← hu]
      rfl
    · simp [mapGet, hk] at hu
  · intro r hr
    simp at hr

theorem loginv_reachable (tr : List Event) (hc : tr.length + 1 < 2 ^ 63) :
    LogInv (responses initStore tr) (run initStore tr) := by
  induction tr using List.reverseRecOn with
  | nil => exact loginv_initStore
  | append_singleton tr e ih =>
    simp only [List.length_append, List.length_singleton] at hc
    obtain ⟨hinv, hcnt⟩ := inv_reachable tr (by omega)
    have hc2 : ((tr.length : Int) + 1 + 1 < 2 ^ 63) := by exact_mod_cast hc
    rw [responses_append, run_append]
    exact loginv_step _ e _ hinv (ih (by omega)) (by omega)

theorem collectComplaints_spec (m : GoMap Complaint) (uid : String) (ids : List String)
    (h : ∀ c ∈ ids, ∃ cm, mapGet m c = some cm ∧ cm.ID = c ∧ cm.UserID = uid) :
    (collectComplaints m ids).map (fun cm => cm.ID) = ids ∧
      (∀ cm ∈ collectComplaints m ids, cm.UserID = uid ∧ mapGet m cm.ID = some cm) ∧
      (∀ c ∈ ids, ∀ cm, mapGet m c = some cm → cm ∈ collectComplaints m ids) := by
  induction ids with
  | nil => simp [collectComplaints]
  | cons c ids ih =>
    obtain ⟨cm, hcm, hid, hown⟩ := h c (List.mem_cons_self _ _)
    obtain ⟨ih1, ih2, ih3⟩ := ih (fun c2 hc2 => h c2 (List.mem_cons_of_mem _ hc2))
    simp only [collectComplaints, hcm]
    refine ⟨by simp [hid, ih1], ?_, ?_⟩
    · intro x hx
      rcases List.mem_cons.mp hx with rfl | hx
      · exact ⟨hown, by rw [hid]; exact hcm⟩
      · exact ih2 x hx
    · intro c2 hc2 x hx
      rcases List.mem_cons.mp hc2 with rfl | hc2
      · rw [hcm] at hx
        rw [← Option.some.inj hx]
        exact List.mem_cons_self _ _
      · exact List.mem_cons_of_mem _ (ih3 c2 hc2 x hx)

/-! ## Splitting at a separator -/

theorem splitChars_ne_nil (sep : Char) (l : List Char) : splitChars sep l ≠ [] := by
  cases l with
  | nil => simp [splitChars]
  | cons c cs =>
    unfold splitChars
    by_cases h : c = sep
    · simp [h]
    · rw [if_neg h]
      split <;> simp

theorem splitChars_of_not_mem (sep : Char) (l : List Char) (h : sep ∉ l) :
    splitChars sep l = [l] := by
  induction l with
  | nil => rfl
  | cons c cs ih =>
    simp only [List.mem_cons, not_or] at h
    unfold splitChars
    rw [if_neg (fun e => h.1 e.symm), ih h.2]

theorem splitChars_append (sep : Char) (p rest : List Char) (h : sep ∉ p) :
    splitChars sep (p ++ sep :: rest) = p :: splitChars sep rest := by
  induction p with
  | nil =>
    show splitChars sep (sep :: rest) = _
    simp only [splitChars, if_true]
  | cons c cs ih =>
    simp only [List.mem_cons, not_or] at h
    show splitChars sep (c :: (cs ++ sep :: rest)) = _
    simp only [splitChars, if_neg (fun e : c = sep => h.1 e.symm), ih h.2]

theorem first_separator (sep : Char) (l : List Char) :
    sep ∉ l ∨ ∃ p rest, l = p ++ sep :: rest ∧ sep ∉ p := by
  induction l with
  | nil => exact Or.inl (List.not_mem_nil _)
  | cons c cs ih =>
    by_cases h : c = sep
    · exact Or.inr ⟨[], cs, by simp [h], List.not_mem_nil _⟩
    · rcases ih with h1 | ⟨p, rest, h1, h2⟩
      · left
        simp only [List.mem_cons, not_or]
        exact ⟨fun e => h e.symm, h1⟩
      · right
        refine ⟨c :: p, rest, by simp [h1], ?_⟩
        simp only [List.mem_cons, not_or]
        exact ⟨fun e => h e.symm, h2⟩

theorem splitChars_eq_pair (sep : Char) (l p0 p1 : List Char) :
    splitChars sep l = [p0, p1] ↔ (l = p0 ++ sep :: p1 ∧ sep ∉ p0 ∧ sep ∉ p1) := by
  constructor
  · intro h
    rcases first_separator sep l with h1 | ⟨p, rest, h1, h2⟩
    · rw [splitChars_of_not_mem sep l h1] at h
      simp at h
    · subst h1
      rw [splitChars_append sep p rest h2] at h
      simp only [List.cons.injEq] at h
      obtain ⟨hp, hrest⟩ := h
      subst hp
      rcases first_separator sep rest with h3 | ⟨q, rest2, h3, h4⟩
      · rw [splitChars_of_not_mem sep rest h3] at hrest
        simp only [List.cons.injEq, and_true] at hrest
        subst hrest
        exact ⟨rfl, h2, h3⟩
      · subst h3
        rw [splitChars_append sep q rest2 h4] at hrest
        simp only [List.cons.injEq] at hrest
        exact absurd hrest.2 (splitChars_ne_nil sep rest2)
  · rintro ⟨h1, h2, h3⟩
    subst h1
    rw [splitChars_append sep p0 p1 h2, splitChars_of_not_mem sep p1 h3]

theorem validateEmail_eq (email : String) :
    validateEmail email =
      match splitChars '@' email.data with
      | [l, d] => !l.isEmpty && !d.isEmpty && d.contains '.'
      | _ => false := by
  obtain ⟨data⟩ := email
  unfold validateEmail splitAt containsDot
  by_cases h0 : data = []
  · subst h0
    rfl
  · have hne : (String.mk data = "") = False := by
      simp only [eq_iff_iff, iff_false]
      intro h
      exact h0 (congrArg String.data h)
    simp only [hne, if_false]
    rcases hs : splitChars '@' data with _ | ⟨a, _ | ⟨b, _ | ⟨c, rest⟩⟩⟩
    · rfl
    · rfl
    · have ha : (String.mk a = "") = (a = []) := by
        simp only [eq_iff_iff]
        exact ⟨fun h => congrArg String.data h, fun h => by rw [h]⟩
      have hb : (String.mk b = "") = (b = []) := by
        simp only [eq_iff_iff]
        exact ⟨fun h => congrArg String.data h, fun h => by rw [h]⟩
      simp only [List.map_cons, List.map_nil, ha, hb]
      cases a <;> cases b <;> simp
    · rfl

/-! ## Decimal printing is injective on all integers -/

theorem digitChar_ne_minus (d : Nat) : digitChar d ≠ '-' := by
  unfold digitChar
  split <;> decide

theorem decDigits_ne_minus (fuel n : Nat) : ∀ c ∈ decDigits fuel n, c ≠ '-' := by
  induction fuel generalizing n with
  | zero =>
    intro c hc
    simp [decDigits] at hc
  | succ fuel ih =>
    intro c hc
    unfold decDigits at hc
    by_cases h10 : n < 10
    · rw [if_pos h10, List.mem_singleton] at hc
      rw [hc]
      exact digitChar_ne_minus n
    · rw [if_neg h10, List.mem_append, List.mem_singleton] at hc
      rcases hc with hc | hc
      · exact ih _ c hc
      · rw [hc]
        exact digitChar_ne_minus _

theorem natToDec_ne_minus (a b : Nat) : "-" ++ natToDec a ≠ natToDec b := by
  intro h
  have h2 := congrArg String.data h
  simp only [String.data_append, natToDec] at h2
  have hmem : '-' ∈ decDigits (b + 1) b := by
    rw [← h2]
    exact List.mem_cons_self _ _
  exact decDigits_ne_minus _ _ _ hmem rfl

theorem itoa_injective (a b : Int) (h : itoa a = itoa b) : a = b := by
  unfold itoa at h
  by_cases ha : a < 0 <;> by_cases hb : b < 0
  · rw [if_pos ha, if_pos hb] at h
    have := natToDec_injective _ _ (append_left_cancel_string _ _ _ h)
    omega
  · rw [if_pos ha, if_neg hb] at h
    exact absurd h (natToDec_ne_minus _ _)
  · rw [if_neg ha, if_pos hb] at h
    exact absurd h.symm (natToDec_ne_minus _ _)
  · rw [if_neg ha, if_neg hb] at h
    have := natToDec_injective _ _ h
    omega

theorem generateIDs_spec (k : Nat) (s : Store) (hlo : -(2 ^ 63) ≤ s.idCounter)
    (hhi : s.idCounter + k < 2 ^ 63) :
    (generateIDs k s).2 = (List.range k).map (fun i => itoa (s.idCounter + (i + 1 : Nat))) ∧
      (generateIDs k s).1 = { s with idCounter := s.idCounter + k } := by
  induction k generalizing s with
  | zero => simp [generateIDs]
  | succ k ih =>
    have hw : wrapInt64 (s.idCounter + 1) = s.idCounter + 1 :=
      wrapInt64_eq _ (by omega) (by omega)
    have hg : generateID s = ({ s with idCounter := s.idCounter + 1 }, itoa (s.idCounter + 1)) := by
      simp [generateID, hw]
    obtain ⟨ih1, ih2⟩ := ih { s with idCounter := s.idCounter + 1 }
      (by simp only; omega) (by simp only; push_cast at hhi; omega)
    simp only [generateIDs, hg, ih1, ih2]
    constructor
    · rw [List.range_succ_eq_map, List.map_cons, List.map_map]
      simp only [Nat.cast_zero, zero_add, Nat.cast_one, List.cons.injEq, true_and]
      apply List.map_congr_left
      intro i _
      simp only [Function.comp, Nat.cast_add, Nat.cast_one, Nat.cast_succ]
      congr 1
      omega
    · simp only [Nat.cast_add, Nat.cast_one]
      congr 1
      omega

/-! ## Lengths in bytes and in characters -/

theorem length_le_utf8Len (l : List Char) : l.length ≤ String.utf8Len l := by
  induction l with
  | nil => simp
  | cons c cs ih =>
    have := Char.utf8Size_pos c
    simp only [List.length_cons, String.utf8Len_cons]
    omega

theorem utf8Size_of_ascii (c : Char) (h : c.toNat < 128) : c.utf8Size = 1 := by
  have hv : c.val ≤ 127 := by
    show c.toNat ≤ 127
    omega
  simp [Char.utf8Size, hv]

theorem utf8Len_of_ascii (l : List Char) (h : ∀ c ∈ l, c.toNat < 128) :
    String.utf8Len l = l.length := by
  induction l with
  | nil => simp
  | cons c cs ih =>
    simp only [List.length_cons, String.utf8Len_cons]
    rw [ih (fun x hx => h x (List.mem_cons_of_mem _ hx)),
      utf8Size_of_ascii c (h c (List.mem_cons_self _ _))]

theorem trimSpace_sublist (t : String) : (trimSpace t).data.Sublist t.data := by
  unfold trimSpace
  have h1 : ((t.data.dropWhile isSpace).reverse.dropWhile isSpace).Sublist
      (t.data.dropWhile isSpace).reverse := List.dropWhile_sublist _
  have h2 := h1.reverse
  rw [List.reverse_reverse] at h2
  exact h2.trans (List.dropWhile_sublist _)

theorem len_trimSpace_ge (t : String) : (trimSpace t).length ≤ len (trimSpace t) := by
  unfold len
  obtain ⟨d⟩ := trimSpace t
  exact length_le_utf8Len d

theorem len_trimSpace_of_ascii (t : String) (h : ∀ c ∈ t.data, c.toNat < 128) :
    len (trimSpace t) = (trimSpace t).length := by
  have hsub := trimSpace_sublist t
  unfold len
  generalize trimSpace t = x at hsub
  obtain ⟨d⟩ := x
  exact utf8Len_of_ascii d (fun c hc => h c (hsub.subset hc))

theorem length_pos_of_ne_empty (x : String) (h : x ≠ "") : 0 < x.length := by
  obtain ⟨d⟩ := x
  cases d with
  | nil => exact absurd rfl h
  | cons c cs => simp [String.length]

/-! ## The form of the identifiers -/

theorem idShape_handle (s : Store) (e : Event) (h : IdShape s) : IdShape (handle s e).1 := by
  rcases handle_cases s e with ⟨h1, _⟩ | ⟨env, req, _, h1⟩ | ⟨env, req, u, hu, h1⟩ |
    ⟨env, cid, cm, hcm, h1⟩
  · rw [h1]; exact h
  · rw [h1]
    constructor
    · intro k v hv
      simp only [registeredStore] at hv
      rcases mapGet_mapSet_cases _ _ _ _ _ hv with ⟨_, rfl⟩ | ⟨_, g⟩
      · exact ⟨_, rfl⟩
      · exact h.user_id k v g
    · exact h.complaint_id
  · rw [h1]
    constructor
    · intro k v hv
      simp only [submittedStore] at hv
      rcases mapGet_mapSet_cases _ _ _ _ _ hv with ⟨_, rfl⟩ | ⟨_, g⟩
      · exact h.user_id _ u hu
      · exact h.user_id k v g
    · intro k v hv
      simp only [submittedStore] at hv
      rcases mapGet_mapSet_cases _ _ _ _ _ hv with ⟨rfl, _⟩ | ⟨_, g⟩
      · exact ⟨_, rfl⟩
      · exact h.complaint_id k v g
  · rw [h1]
    constructor
    · exact h.user_id
    · intro k v hv
      simp only [resolvedStore] at hv
      rcases mapGet_mapSet_cases _ _ _ _ _ hv with ⟨rfl, _⟩ | ⟨_, g⟩
      · exact h.complaint_id _ cm hcm
      · exact h.complaint_id k v g

theorem idShape_reachable (tr : List Event) : IdShape (run initStore tr) := by
  have hrun : ∀ (l : List Event) (s : Store), IdShape s → IdShape (run s l) := by
    intro l
    induction l with
    | nil => intro s hs; exact hs
    | cons e l ih => intro s hs; exact ih _ (idShape_handle s e hs)
  refine hrun tr initStore ⟨?_, ?_⟩
  · intro k u hu
    obtain ⟨n, _, _, hn⟩ := inv_initStore.user_id k u hu
    exact ⟨n, hn⟩
  · intro k cm hcm
    obtain ⟨_, x, ⟨n, _, _, hn⟩, hk⟩ := inv_initStore.complaint_key k cm hcm
    exact ⟨n, by rw [hk, hn]⟩

theorem digitChar_ne_C (d : Nat) : digitChar d ≠ 'C' := by
  unfold digitChar
  split <;> decide

theorem decDigits_ne_C (fuel n : Nat) : ∀ c ∈ decDigits fuel n, c ≠ 'C' := by
  induction fuel generalizing n with
  | zero =>
    intro c hc
    simp [decDigits] at hc
  | succ fuel ih =>
    intro c hc
    unfold decDigits at hc
    by_cases h10 : n < 10
    · rw [if_pos h10, List.mem_singleton] at hc
      rw [hc]
      exact digitChar_ne_C n
    · rw [if_neg h10, List.mem_append, List.mem_singleton] at hc
      rcases hc with hc | hc
      · exact ih _ c hc
      · rw [hc]
        exact digitChar_ne_C _

theorem complaint_id_ne_itoa (x : String) (m : Int) : "C" ++ x ≠ itoa m := by
  intro h
  have h2 := congrArg String.data h
  have hmem : 'C' ∈ (itoa m).data := by
    rw [← h2, String.data_append]
    exact List.mem_cons_self _ _
  unfold itoa at hmem
  by_cases hm : m < 0
  · rw [if_pos hm, String.data_append] at hmem
    rcases List.mem_append.mp hmem with h3 | h3
    · revert h3
      decide
    · exact decDigits_ne_C _ _ _ h3 rfl
  · rw [if_neg hm] at hmem
    exact decDigits_ne_C _ _ _ hmem rfl

theorem mapSet_of_none {β : Type} (m : GoMap β) (k : String) (v : β)
    (h : mapGet m k = none) : mapSet m k v = m ++ [(k, v)] := by
  induction m with
  | nil => rfl
  | cons hd tl ih =>
    obtain ⟨k', v'⟩ := hd
    by_cases hk : k' = k
    · simp [mapGet, hk] at h
    · simp only [mapGet, hk, if_false] at h
      simp [mapSet, hk, ih h]

theorem mapSet_keys_of_some {β : Type} (m : GoMap β) (k : String) (v v0 : β)
    (h : mapGet m k = some v0) : (mapSet m k v).map Prod.fst = m.map Prod.fst := by
  induction m with
  | nil => simp [mapGet] at h
  | cons hd tl ih =>
    obtain ⟨k', v'⟩ := hd
    by_cases hk : k' = k
    · simp [mapSet, hk]
    · simp only [mapGet, hk, if_false] at h
      simp [mapSet, hk, ih h]

/-! ## Concurrent resolution -/

theorem handleResolveComplaint_eq_phases (s : Store) (env : Env)
    (r : HttpRequest ResolveComplaintRequest) :
    handleResolveComplaint s env r = resolveFinish s env (resolveCheck s r) := by
  obtain ⟨method, body⟩ := r
  by_cases hm : method = "POST"
  · subst hm
    cases body with
    | none => simp [handleResolveComplaint, resolveCheck, resolveFinish]
    | some req =>
      cases ha : authenticateUser s req.SecretCode with
      | error e => simp [handleResolveComplaint, resolveCheck, resolveFinish, ha]
      | ok user =>
        by_cases h1 : user.IsAdmin = true
        · cases hg : mapGet s.complaints req.ComplaintID with
          | none =>
            simp [handleResolveComplaint, resolveCheck, resolveFinish, ha, h1, isAdmin,
              getComplaintByID, hg]
          | some cm =>
            by_cases h2 : cm.Status = "resolved"
            · simp [handleResolveComplaint, resolveCheck, resolveFinish, ha, h1, isAdmin,
                getComplaintByID, hg, h2]
            · simp [handleResolveComplaint, resolveCheck, resolveFinish, resolveWrite, ha,
                h1, isAdmin, getComplaintByID, hg, h2]
        · simp [handleResolveComplaint, resolveCheck, resolveFinish, ha, h1, isAdmin]
  · simp [handleResolveComplaint, resolveCheck, resolveFinish, hm]

/-! ## Secret codes are generated injectively -/

theorem upperHex_injective (a b : Nat) (ha : a < 16) (hb : b < 16)
    (h : (hexDigit a).toUpper = (hexDigit b).toUpper) : a = b := by
  interval_cases a <;> interval_cases b <;> first | rfl | exact absurd h (by decide)

theorem upperHex_ne_S (d : Nat) : (hexDigit d).toUpper ≠ 'S' := by
  unfold hexDigit
  split <;> decide

theorem toUpper_hexEncodeToString_cons (b : Fin 256) (l : List (Fin 256)) :
    (toUpper (hexEncodeToString (b :: l))).data =
      (hexDigit (b.val / 16)).toUpper :: (hexDigit (b.val % 16)).toUpper ::
        (toUpper (hexEncodeToString l)).data := by
  simp [toUpper, hexEncodeToString]

theorem hexCode_injective (l1 l2 : List (Fin 256))
    (h : toUpper (hexEncodeToString l1) = toUpper (hexEncodeToString l2)) : l1 = l2 := by
  induction l1 generalizing l2 with
  | nil =>
    cases l2 with
    | nil => rfl
    | cons b t =>
      have h2 := congrArg String.data h
      rw [toUpper_hexEncodeToString_cons] at h2
      simp [toUpper, hexEncodeToString] at h2
  | cons a t ih =>
    cases l2 with
    | nil =>
      have h2 := congrArg String.data h
      rw [toUpper_hexEncodeToString_cons] at h2
      simp [toUpper, hexEncodeToString] at h2
    | cons b u =>
      have h2 := congrArg String.data h
      rw [toUpper_hexEncodeToString_cons, toUpper_hexEncodeToString_cons] at h2
      simp only [List.cons.injEq] at h2
      obtain ⟨h3, h4, h5⟩ := h2
      have ha := a.isLt
      have hb := b.isLt
      have g1 := upperHex_injective _ _ (by omega) (by omega) h3
      have g2 := upperHex_injective _ _ (Nat.mod_lt _ (by decide)) (Nat.mod_lt _ (by decide)) h4
      have hab : a = b := Fin.ext (by omega)
      rw [hab, ih u (String.ext h5)]

theorem hexCode_ne_clockCode (l : List (Fin 256)) (hl : l.length = 8) (t : Int) :
    toUpper (hexEncodeToString l) ≠ "SC" ++ itoa t := by
  intro h
  cases l with
  | nil => simp at hl
  | cons b u =>
    have h2 := congrArg String.data h
    rw [toUpper_hexEncodeToString_cons, String.data_append] at h2
    have h3 : (hexDigit (b.val / 16)).toUpper = 'S' := (List.cons.inj h2).1
    exact upperHex_ne_S _ h3

theorem generateSecretCode_injective (e1 e2 : Env)
    (h : generateSecretCode e1 = generateSecretCode e2) :
    entropyOutcome e1 = entropyOutcome e2 := by
  unfold generateSecretCode at h
  unfold entropyOutcome
  cases h1 : e1.rand with
  | none =>
    cases h2 : e2.rand with
    | none =>
      rw [h1, h2] at h
      simp only
      rw [itoa_injective _ _ (append_left_cancel_string _ _ _ h)]
    | some b2 =>
      rw [h1, h2] at h
      exact absurd h.symm (hexCode_ne_clockCode b2.val b2.property _)
  | some b1 =>
    cases h2 : e2.rand with
    | none =>
      rw [h1, h2] at h
      exact absurd h (hexCode_ne_clockCode b1.val b1.property _)
    | some b2 =>
      rw [h1, h2] at h
      simp only
      rw [Subtype.ext (hexCode_injective _ _ h)]

theorem login_after_distinct_codes (regs : List (Env × RegisterRequest)) (s0 : Store)
    (hok : ∀ r ∈ responses s0 (regs.map registerEvent), r.status = 201)
    (hnodup : (regs.map (fun p => generateSecretCode p.1)).Nodup) :
    returnedCodes (responses s0 (regs.map registerEvent)) =
        regs.map (fun p => generateSecretCode p.1) ∧
      (returnedCodes (responses s0 (regs.map registerEvent))).Nodup ∧
      ∀ p ∈ List.zip regs (responses s0 (regs.map registerEvent)), ∃ id,
        p.2 = ⟨201, Payload.registered
          ⟨id, generateSecretCode p.1.1, p.1.2.Name, p.1.2.Email⟩⟩ ∧
        handleLogin (run s0 (regs.map registerEvent)) (post ⟨generateSecretCode p.1.1⟩) =
          (run s0 (regs.map registerEvent),
            ⟨200, Payload.loggedIn
              ⟨id, generateSecretCode p.1.1, p.1.2.Name, p.1.2.Email, [], false⟩⟩) := by
  induction regs generalizing s0 with
  | nil =>
    refine ⟨rfl, List.nodup_nil, ?_⟩
    intro p hp
    simp at hp
  | cons q regs ih =>
    simp only [List.map_cons, responses, List.mem_cons, forall_eq_or_imp] at hok
    simp only [List.map_cons, List.nodup_cons] at hnodup
    have hq : (handle s0 (registerEvent q)) = handleRegister s0 q.1 (post q.2) := rfl
    rw [hq] at hok
    obtain ⟨req, hreq, _, _, _, hreg⟩ := handleRegister_created s0 q.1 (post q.2) hok.1
    have hreq2 : req = q.2 := by
      have := congrArg HttpRequest.body hreq
      simp only [post, Option.some.injEq] at this
      exact this.symm
    subst hreq2
    rw [hreg] at hok
    obtain ⟨ih1, ih2, ih3⟩ := ih (registeredStore s0 q.1 q.2) hok.2 hnodup.2
    have hcodes : returnedCodes (responses s0 (List.map registerEvent (q :: regs))) =
        (q :: regs).map (fun p => generateSecretCode p.1) := by
      simp only [List.map_cons, responses]
      rw [returnedCodes_cons, hq, hreg, ih1]
      simp [returnedCodes, sendJSON]
    refine ⟨hcodes, ?_, ?_⟩
    · rw [hcodes]
      exact List.nodup_cons.mpr hnodup
    · intro p hp
      simp only [List.map_cons, responses, List.zip_cons_cons, List.mem_cons] at hp
      rw [List.map_cons, run_cons, hq, hreg]
      rw [hq, hreg] at hp
      rcases hp with hp | hp
      · subst hp
        refine ⟨(newUser s0 q.1 q.2).ID, rfl, ?_⟩
        have hstored : mapGet (registeredStore s0 q.1 q.2).users (generateSecretCode q.1) =
            some (newUser s0 q.1 q.2) := by
          simp only [registeredStore]
          rw [mapGet_mapSet_same]
        have hfinal := user_persists_registers regs _ _ _ hstored hnodup.1
        rw [handleLogin_ok _ _ _ (generateSecretCode_ne_empty q.1) hfinal]
        rfl
      · exact ih3 p hp

/-! ## The claims -/

/-- C1: in every store reached from the seeded one, for an admin and a stored
complaint with status `pending`, a first `handleResolveComplaint` request
answers 200 with the complaint marked `resolved` and `ResolvedAt` set to the
clock of that call, and stores it so.  A second resolve request for the same id
by any admin, at any clock value, answers 400 `already_resolved` and leaves the
store as it was: when it follows at once, and also after any further requests
(as long as the 64-bit id counter cannot have wrapped around, that is for fewer
than `2^63 - 1` requests served in all), in which case the stored complaint
still carries the `ResolvedAt` of the first call. -/
theorem C1_resolve_twice (tr1 : List Event) (env1 : Env) (code cid : String) (u : User)
    (cm : Complaint)
    (hu : authenticateUser (run initStore tr1) code = Except.ok u)
    (ha : u.IsAdmin = true)
    (hcm : mapGet (run initStore tr1).complaints cid = some cm)
    (hp : cm.Status = "pending") :
    (handleResolveComplaint (run initStore tr1) env1 (post ⟨code, cid⟩)).2 =
        ⟨200, Payload.complaint { cm with Status := "resolved", ResolvedAt := some env1.now }⟩ ∧
      mapGet (handleResolveComplaint (run initStore tr1) env1 (post ⟨code, cid⟩)).1.complaints
          cid = some { cm with Status := "resolved", ResolvedAt := some env1.now } ∧
      (∀ (env2 : Env) (code2 : String) (u2 : User),
        authenticateUser
          (handleResolveComplaint (run initStore tr1) env1 (post ⟨code, cid⟩)).1
          code2 = Except.ok u2 →
        u2.IsAdmin = true →
        handleResolveComplaint
            (handleResolveComplaint (run initStore tr1) env1 (post ⟨code, cid⟩)).1
            env2 (post ⟨code2, cid⟩) =
          ((handleResolveComplaint (run initStore tr1) env1 (post ⟨code, cid⟩)).1,
            ⟨400, Payload.error "already_resolved" "Complaint is already resolved"⟩)) ∧
      ∀ (tr2 : List Event) (env2 : Env) (code2 : String) (u2 : User),
        tr1.length + 1 + tr2.length + 1 < 2 ^ 63 →
        authenticateUser
          (run (handleResolveComplaint (run initStore tr1) env1 (post ⟨code, cid⟩)).1 tr2)
          code2 = Except.ok u2 →
        u2.IsAdmin = true →
        handleResolveComplaint
            (run (handleResolveComplaint (run initStore tr1) env1 (post ⟨code, cid⟩)).1 tr2)
            env2 (post ⟨code2, cid⟩) =
          (run (handleResolveComplaint (run initStore tr1) env1 (post ⟨code, cid⟩)).1 tr2,
            ⟨400, Payload.error "already_resolved" "Complaint is already resolved"⟩) ∧
        mapGet
            (run (handleResolveComplaint (run initStore tr1) env1 (post ⟨code, cid⟩)).1
              tr2).complaints cid =
          some { cm with Status := "resolved", ResolvedAt := some env1.now } := by
  have hnr : cm.Status ≠ "resolved" := by rw [hp]; decide
  have hfirst : handleResolveComplaint (run initStore tr1) env1 (post ⟨code, cid⟩) =
      (resolvedStore (run initStore tr1) env1 cid cm,
        ⟨200, Payload.complaint (resolvedComplaint env1 cm)⟩) := by
    simp [handleResolveComplaint, post, hu, isAdmin, ha, getComplaintByID, hcm, hnr,
      resolvedStore, resolvedComplaint, sendJSON]
  have hstored : mapGet (resolvedStore (run initStore tr1) env1 cid cm).complaints cid =
      some (resolvedComplaint env1 cm) := by
    simp only [resolvedStore]
    rw [mapGet_mapSet_same]
  rw [hfirst]
  refine ⟨rfl, hstored, ?_, ?_⟩
  · intro env2 code2 u2 hu2 ha2
    simp [handleResolveComplaint, post, hu2, isAdmin, ha2, getComplaintByID, hstored,
      resolvedComplaint, sendError]
  · intro tr2 env2 code2 u2 hc hu2 ha2
    have hc2 : ((tr1.length : Int) + 1 + tr2.length + 1 < 2 ^ 63) := by exact_mod_cast hc
    obtain ⟨hinv, hcnt⟩ := inv_reachable tr1 (by omega)
    have hinv1 := inv_resolved _ env1 cid cm hinv hcm
    have hlater := resolved_persists tr2 _ hinv1
      (by simp only [resolvedStore]; omega) cid _ hstored rfl
    refine ⟨?_, hlater⟩
    simp [handleResolveComplaint, post, hu2, isAdmin, ha2, getComplaintByID, hlater,
      resolvedComplaint, sendError]

/-- Witness of C1: Bob registers and submits complaint `C3`; the admin resolves
it, Bob logs in, and the admin tries to resolve it again. -/
theorem C1_resolve_twice_witness :
    (handleResolveComplaint (run initStore sampleTrace) ⟨1700000100, none⟩
        (post ⟨"ADMIN123", "C3"⟩)).2 =
      ⟨200, Payload.complaint
        { bobsComplaint with Status := "resolved", ResolvedAt := some 1700000100 }⟩ ∧
    (handleResolveComplaint
        (run (handleResolveComplaint (run initStore sampleTrace) ⟨1700000100, none⟩
          (post ⟨"ADMIN123", "C3"⟩)).1
          [⟨sampleEnv, Request.login (post ⟨"0102030405060708"⟩)⟩])
        ⟨1700000200, none⟩ (post ⟨"ADMIN123", "C3"⟩)).2 =
      ⟨400, Payload.error "already_resolved" "Complaint is already resolved"⟩ :=
  have h := C1_resolve_twice sampleTrace ⟨1700000100, none⟩ "ADMIN123" "C3" adminUser
    bobsComplaint rfl rfl (by decide) rfl
  ⟨h.1, congrArg Prod.snd
    (h.2.2.2 [⟨sampleEnv, Request.login (post ⟨"0102030405060708"⟩)⟩] ⟨1700000200, none⟩
      "ADMIN123" adminUser (by decide) rfl rfl).1⟩

/-- C2: after any sequence of requests from the seeded store, every stored
complaint has status `pending` or `resolved`, and it is `resolved` exactly when
`ResolvedAt` is set; and (as long as the 64-bit id counter cannot have wrapped
around, that is for fewer than `2^63 - 2` requests served so far) no request
alters a stored complaint whose status is `resolved`: it stays stored,
unchanged, under the same id. -/
theorem C2_status_matches_resolvedAt (tr : List Event) :
    (∀ kv ∈ (run initStore tr).complaints,
        (kv.2.Status = "pending" ∨ kv.2.Status = "resolved") ∧
        (kv.2.Status = "resolved" ↔ kv.2.ResolvedAt ≠ none)) ∧
      (tr.length + 2 < 2 ^ 63 → ∀ (e : Event) (k : String) (cm : Complaint),
        mapGet (run initStore tr).complaints k = some cm → cm.Status = "resolved" →
        mapGet (handle (run initStore tr) e).1.complaints k = some cm) := by
  constructor
  · intro kv hkv
    have hs := shape_reachable tr
    have hget := mem_mapGet _ hs.complaints_nodup kv.1 kv.2 hkv
    rcases hs.complaint_status _ _ hget with ⟨h1, h2⟩ | ⟨h1, t, h2⟩
    · refine ⟨Or.inl h1, ?_⟩
      rw [h1, h2]
      simp
    · refine ⟨Or.inr h1, ?_⟩
      rw [h1, h2]
      simp
  · intro hc e k cm hcm hres
    obtain ⟨hinv, hcnt⟩ := inv_reachable tr (by omega)
    have hc2 : ((tr.length : Int) + 2 < 2 ^ 63) := by exact_mod_cast hc
    exact resolved_persists_step _ e hinv (by omega) k cm hcm hres

/-- Witness of C2: once the admin has resolved `C3`, a further submission by Bob
leaves the resolved record as it is. -/
theorem C2_status_matches_resolvedAt_witness :
    mapGet (handle (run initStore (sampleTrace ++ [adminResolves])) bobSubmits).1.complaints
        "C3" =
      some { bobsComplaint with Status := "resolved", ResolvedAt := some 1700000100 } :=
  (C2_status_matches_resolvedAt (sampleTrace ++ [adminResolves])).2 (by decide) bobSubmits
    "C3" { bobsComplaint with Status := "resolved", ResolvedAt := some 1700000100 }
    rfl rfl

/-- C3: whatever the store and the complaint id, a well-formed POST request
whose secret code authenticates to a user with `IsAdmin == false` is answered
403 `access_denied` by both `handleGetAllComplaintsForAdmin` and
`handleResolveComplaint`, and the store is returned unchanged. -/
theorem C3_non_admin_is_forbidden (s : Store) (env : Env) (code cid : String) (u : User)
    (hu : authenticateUser s code = Except.ok u) (hna : u.IsAdmin = false) :
    handleGetAllComplaintsForAdmin s (post ⟨code⟩) =
        (s, ⟨403, Payload.error "access_denied"
          "Only administrators can access this endpoint"⟩) ∧
      handleResolveComplaint s env (post ⟨code, cid⟩) =
        (s, ⟨403, Payload.error "access_denied"
          "Only administrators can resolve complaints"⟩) := by
  constructor
  · simp [handleGetAllComplaintsForAdmin, post, hu, isAdmin, hna, sendError]
  · simp [handleResolveComplaint, post, hu, isAdmin, hna, sendError]

/-- Witness of C3: Bob, a registered non-admin, asks for the admin listing and
for the resolution of complaint `C3`. -/
theorem C3_non_admin_is_forbidden_witness :
    authenticateUser (run initStore sampleTrace) "0102030405060708" =
        Except.ok ⟨"2", "0102030405060708", "Bob", "bob@example.com", ["C3"], false⟩ ∧
      handleGetAllComplaintsForAdmin (run initStore sampleTrace) (post ⟨"0102030405060708"⟩) =
        (run initStore sampleTrace, ⟨403, Payload.error "access_denied"
          "Only administrators can access this endpoint"⟩) ∧
      handleResolveComplaint (run initStore sampleTrace) sampleEnv
          (post ⟨"0102030405060708", "C3"⟩) =
        (run initStore sampleTrace, ⟨403, Payload.error "access_denied"
          "Only administrators can resolve complaints"⟩) :=
  ⟨rfl,
    C3_non_admin_is_forbidden (run initStore sampleTrace) sampleEnv "0102030405060708" "C3"
      ⟨"2", "0102030405060708", "Bob", "bob@example.com", ["C3"], false⟩ rfl rfl⟩

/-- C4: `canViewComplaint user complaint` is true exactly when the user is an
admin or the complaint's `UserID` is the user's `ID`; being a pure function of
its two arguments it changes neither. -/
theorem C4_canViewComplaint_iff (user : User) (complaint : Complaint) :
    canViewComplaint user complaint = true ↔
      (user.IsAdmin = true ∨ complaint.UserID = user.ID) := by
  unfold canViewComplaint
  by_cases h : user.IsAdmin = true
  · simp [h]
  · simp [h]

/-- C5: `authenticateUser` returns an error exactly when the code is empty or no
user is stored under it, and returns `u` exactly when the code is non-empty and
`u` is the user stored under it; it takes the store as a value and returns no
store, so it cannot change it. -/
theorem C5_authenticateUser_spec (s : Store) (code : String) :
    ((∃ msg, authenticateUser s code = Except.error msg) ↔
        (code = "" ∨ mapGet s.users code = none)) ∧
      ∀ u, authenticateUser s code = Except.ok u ↔
        (code ≠ "" ∧ mapGet s.users code = some u) := by
  refine ⟨?_, fun u => authenticateUser_ok_iff s code u⟩
  unfold authenticateUser
  by_cases h : code = ""
  · simp [h]
  · cases hg : mapGet s.users code with
    | none => simp [h]
    | some v => simp [h]

/-- Counterexample to C6 as stated: Bob registers with `bob@example.com` (201);
Carol registers while the entropy source repeats the bytes it gave Bob, so her
record replaces his under the shared secret code (201); a later registration
with `bob@example.com` and the valid name `Robert` is then answered 201, not
409, and a user is created for it. -/
theorem C6_counterexample :
    responses initStore [bobRegisters, carolRegisters, robertRegisters] =
        [⟨201, Payload.registered ⟨"2", "0102030405060708", "Bob", "bob@example.com"⟩⟩,
          ⟨201, Payload.registered ⟨"3", "0102030405060708", "Carol", "carol@example.com"⟩⟩,
          ⟨201, Payload.registered ⟨"4", "090A0B0C0D0E0F10", "Robert", "bob@example.com"⟩⟩] ∧
      mapGet (run initStore [bobRegisters, carolRegisters, robertRegisters]).users
          "090A0B0C0D0E0F10" =
        some ⟨"4", "090A0B0C0D0E0F10", "Robert", "bob@example.com", [], false⟩ := by
  decide

/-- C6 (amended): from any store, once a register request with email `e` has
been answered 201, and as long as no later response hands out the secret code
of that registration again, every later register request with the same email
and any valid name is answered 409 `email_exists` and leaves the store
unchanged, so it creates no user. -/
theorem C6_duplicate_email_conflict (s0 : Store) (env1 : Env) (req1 : RegisterRequest)
    (tr2 : List Event) (env3 : Env) (name : String)
    (h1 : (handleRegister s0 env1 (post req1)).2.status = 201)
    (hcodes : generateSecretCode env1 ∉
      returnedCodes (responses (handleRegister s0 env1 (post req1)).1 tr2))
    (hname : validateName name = true) :
    handleRegister (run (handleRegister s0 env1 (post req1)).1 tr2) env3
        (post ⟨name, req1.Email⟩) =
      (run (handleRegister s0 env1 (post req1)).1 tr2,
        ⟨409, Payload.error "email_exists" "Email already exists"⟩) := by
  obtain ⟨req, hreq, _, hemail, _, hreg⟩ := handleRegister_created s0 env1 (post req1) h1
  have hreq2 : req = req1 := by
    have := congrArg HttpRequest.body hreq
    simp only [post, Option.some.injEq] at this
    exact this.symm
  subst hreq2
  rw [hreg] at hcodes ⊢
  have hstored : ∃ u, mapGet (registeredStore s0 env1 req).users (generateSecretCode env1)
      = some u ∧ u.Email = req.Email := by
    refine ⟨newUser s0 env1 req, ?_, rfl⟩
    simp only [registeredStore]
    rw [mapGet_mapSet_same]
  obtain ⟨u, hu, hem⟩ := email_persists tr2 _ _ _ hstored hcodes
  have hex : emailExists (run (registeredStore s0 env1 req) tr2) req.Email = true := by
    unfold emailExists
    exact List.any_eq_true.mpr ⟨(_, u), mapGet_mem _ _ _ hu, by simp [hem]⟩
  simp [handleRegister, post, hname, hemail, hex, sendError]

/-- Witness of C6 (amended): Bob registers, submits a complaint, and a
registration under his email with the name `Robert` follows. -/
theorem C6_duplicate_email_conflict_witness :
    (handleRegister (run initStore sampleTrace) ⟨1700000300, none⟩
        (post ⟨"Robert", "bob@example.com"⟩)).2 =
      ⟨409, Payload.error "email_exists" "Email already exists"⟩ :=
  congrArg Prod.snd
    (C6_duplicate_email_conflict initStore sampleEnv ⟨"Bob", "bob@example.com"⟩ [bobSubmits]
      ⟨1700000300, none⟩ "Robert" (by decide) (by decide) (by decide))

/-- Counterexample to C7 as stated: Bob and Carol register with distinct valid
emails and both are answered 201, but the entropy source returns the same
eight bytes twice: the two returned secret codes are equal, and a login with
the code returned to Bob answers with Carol's id, name and email. -/
theorem C7_counterexample :
    responses initStore [bobRegisters, carolRegisters] =
        [⟨201, Payload.registered ⟨"2", "0102030405060708", "Bob", "bob@example.com"⟩⟩,
          ⟨201, Payload.registered ⟨"3", "0102030405060708", "Carol", "carol@example.com"⟩⟩] ∧
      (handleLogin (run initStore [bobRegisters, carolRegisters])
          (post ⟨"0102030405060708"⟩)).2 =
        ⟨200, Payload.loggedIn
          ⟨"3", "0102030405060708", "Carol", "carol@example.com", [], false⟩⟩ := by
  decide

/-- C7 (amended): from any store, for every sequence of register requests all
answered 201 during which the entropy source does not repeat an outcome (the
eight bytes read, or the clock value when the read fails, are pairwise
distinct), the returned secret codes are pairwise distinct, each being the
code generated for its request, and after the whole sequence a login with each
returned code answers 200 with the id returned by that registration and the
name and email it was given (and with an empty complaint list and no admin
flag). -/
theorem C7_distinct_codes_login (regs : List (Env × RegisterRequest)) (s0 : Store)
    (hok : ∀ r ∈ responses s0 (regs.map registerEvent), r.status = 201)
    (hfresh : (regs.map (fun p => entropyOutcome p.1)).Nodup) :
    (returnedCodes (responses s0 (regs.map registerEvent))).Nodup ∧
      returnedCodes (responses s0 (regs.map registerEvent)) =
        regs.map (fun p => generateSecretCode p.1) ∧
      ∀ p ∈ List.zip regs (responses s0 (regs.map registerEvent)), ∃ id,
        p.2 = ⟨201, Payload.registered
          ⟨id, generateSecretCode p.1.1, p.1.2.Name, p.1.2.Email⟩⟩ ∧
        handleLogin (run s0 (regs.map registerEvent)) (post ⟨generateSecretCode p.1.1⟩) =
          (run s0 (regs.map registerEvent),
            ⟨200, Payload.loggedIn
              ⟨id, generateSecretCode p.1.1, p.1.2.Name, p.1.2.Email, [], false⟩⟩) := by
  have hinj := List.inj_on_of_nodup_map hfresh
  have hcodes : (regs.map (fun p => generateSecretCode p.1)).Nodup := by
    apply List.Nodup.map_on _ (List.Nodup.of_map _ hfresh)
    intro x hx y hy hxy
    exact hinj hx hy (generateSecretCode_injective _ _ hxy)
  obtain ⟨h1, h2, h3⟩ := login_after_distinct_codes regs s0 hok hcodes
  exact ⟨h2, h1, h3⟩

/-- Witness of C7 (amended): Bob and Carol register with different random
bytes. -/
theorem C7_distinct_codes_login_witness :
    (returnedCodes (responses initStore (twoRegistrations.map registerEvent))).Nodup ∧
      returnedCodes (responses initStore (twoRegistrations.map registerEvent)) =
        ["0102030405060708", "090A0B0C0D0E0F10"] ∧
      (handleLogin (run initStore (twoRegistrations.map registerEvent))
          (post ⟨"0102030405060708"⟩)).2 =
        ⟨200, Payload.loggedIn
          ⟨"2", "0102030405060708", "Bob", "bob@example.com", [], false⟩⟩ :=
  have h := C7_distinct_codes_login twoRegistrations initStore (by decide) (by decide)
  ⟨h.1, h.2.1, by
    obtain ⟨id, h1, h2⟩ := h.2.2
      ((sampleEnv, ⟨"Bob", "bob@example.com"⟩),
        ⟨201, Payload.registered ⟨"2", "0102030405060708", "Bob", "bob@example.com"⟩⟩)
      (by decide)
    have hid : id = "2" := by
      simp only [Response.mk.injEq, Payload.registered.injEq, RegisterResponse.mk.injEq] at h1
      exact h1.2.1.symm
    subst hid
    exact congrArg Prod.snd h2⟩

/-- C8: after any sequence of requests from the seeded store, no two distinct
entries of the users map carry the same email, every entry is stored under the
key equal to its own `SecretCode`, and no key occurs twice. -/
theorem C8_users_unique (tr : List Event) :
    (∀ e1 ∈ (run initStore tr).users, ∀ e2 ∈ (run initStore tr).users,
        e1.2.Email = e2.2.Email → e1 = e2) ∧
      (∀ e ∈ (run initStore tr).users, e.2.SecretCode = e.1) ∧
      ((run initStore tr).users.map Prod.fst).Nodup := by
  have hs := shape_reachable tr
  refine ⟨?_, ?_, hs.users_nodup⟩
  · intro e1 h1 e2 h2 hem
    have g1 := mem_mapGet _ hs.users_nodup e1.1 e1.2 h1
    have g2 := mem_mapGet _ hs.users_nodup e2.1 e2.2 h2
    have hk := hs.user_email_inj _ _ _ _ g1 g2 hem
    have hv : e1.2 = e2.2 := by
      rw [hk] at g1
      rw [g1] at g2
      exact Option.some.inj g2
    exact Prod.ext hk hv
  · intro e he
    exact (hs.user_key _ _ (mem_mapGet _ hs.users_nodup e.1 e.2 he)).1

/-- C9: in every store reached from the seeded one (the id counter not having
wrapped around, that is for fewer than `2^63 - 1` requests served), for every
stored user `u`: an id occurs in `u.Complaints` exactly when the complaint
store holds, under that id, a complaint carrying that id whose `UserID` is
`u.ID`; and `handleGetAllComplaintsForUser` answers 200 with a list whose ids
are exactly the ids of the complaints the served requests created for `u.ID`,
in the order of their creation, without repetition, each record being the
stored one and owned by `u`, and every stored complaint owned by `u` being in
the list. -/
theorem C9_owned_list_is_exact (tr : List Event) (code : String) (u : User)
    (hc : tr.length + 1 < 2 ^ 63)
    (hu : mapGet (run initStore tr).users code = some u) :
    (∀ c, c ∈ u.Complaints ↔
        ∃ cm, mapGet (run initStore tr).complaints c = some cm ∧ cm.ID = c ∧
          cm.UserID = u.ID) ∧
      ∃ l, handleGetAllComplaintsForUser (run initStore tr) (post ⟨code⟩) =
          (run initStore tr, ⟨200, Payload.complaintList l⟩) ∧
        l.map (fun cm => cm.ID) = submittedBy u.ID (responses initStore tr) ∧
        l.Nodup ∧
        (∀ cm ∈ l, cm.UserID = u.ID ∧
          mapGet (run initStore tr).complaints cm.ID = some cm) ∧
        (∀ k cm, mapGet (run initStore tr).complaints k = some cm →
          cm.UserID = u.ID → cm ∈ l) := by
  obtain ⟨hinv, _⟩ := inv_reachable tr hc
  have hlog := loginv_reachable tr hc
  have hown : ∀ c, c ∈ u.Complaints ↔
      ∃ cm, mapGet (run initStore tr).complaints c = some cm ∧ cm.ID = c ∧
        cm.UserID = u.ID := by
    intro c
    rw [hinv.owned code u hu c]
    constructor
    · rintro ⟨cm, h1, h2⟩
      exact ⟨cm, h1, (hinv.complaint_key c cm h1).1, h2⟩
    · rintro ⟨cm, h1, _, h2⟩
      exact ⟨cm, h1, h2⟩
  refine ⟨hown, collectComplaints (run initStore tr).complaints u.Complaints, ?_, ?_⟩
  · have ha := (authenticateUser_ok_iff _ code u).mpr ⟨(hinv.user_key code u hu).2, hu⟩
    simp [handleGetAllComplaintsForUser, post, ha, sendJSON]
  · obtain ⟨h1, h2, h3⟩ := collectComplaints_spec (run initStore tr).complaints u.ID
      u.Complaints (fun c hc2 => (hown c).mp hc2)
    refine ⟨?_, ?_, h2, ?_⟩
    · rw [h1]
      exact hlog.list_eq code u hu
    · apply List.Nodup.of_map (fun cm : Complaint => cm.ID)
      rw [h1]
      exact hinv.owned_nodup code u hu
    · intro k cm hcm hid
      have hmem : k ∈ u.Complaints :=
        (hown k).mpr ⟨cm, hcm, (hinv.complaint_key k cm hcm).1, hid⟩
      exact h3 k hmem cm hcm

/-- Witness of C9: after Bob has registered and submitted `C3`, his listing is
exactly that complaint. -/
theorem C9_owned_list_is_exact_witness :
    mapGet (run initStore sampleTrace).users "0102030405060708" =
        some ⟨"2", "0102030405060708", "Bob", "bob@example.com", ["C3"], false⟩ ∧
      ∃ l, handleGetAllComplaintsForUser (run initStore sampleTrace)
          (post ⟨"0102030405060708"⟩) =
          (run initStore sampleTrace, ⟨200, Payload.complaintList l⟩) ∧
        l.map (fun cm => cm.ID) = submittedBy "2" (responses initStore sampleTrace) :=
  ⟨by decide,
    have h := (C9_owned_list_is_exact sampleTrace "0102030405060708"
      ⟨"2", "0102030405060708", "Bob", "bob@example.com", ["C3"], false⟩
      (by decide) (by decide)).2
    h.elim fun l hl => ⟨l, hl.1, hl.2.1⟩⟩

/-- C10: `validateRating` accepts exactly the ratings from 1 to 10 (so 0 and 11
are rejected, 1 and 10 accepted), and an authenticated `handleSubmitComplaint`
request with valid title and summary is answered 400 `invalid_rating` exactly
when the rating is outside that range. -/
theorem C10_rating_bounds (s : Store) (env : Env) (req : SubmitComplaintRequest) (u : User)
    (hu : authenticateUser s req.SecretCode = Except.ok u)
    (ht : validateComplaintTitle req.Title = true)
    (hs : validateComplaintSummary req.Summary = true) :
    (∀ rating : Int, validateRating rating = true ↔ (1 ≤ rating ∧ rating ≤ 10)) ∧
      validateRating 0 = false ∧ validateRating 11 = false ∧
      validateRating 1 = true ∧ validateRating 10 = true ∧
      ((handleSubmitComplaint s env (post req)).2 =
          ⟨400, Payload.error "invalid_rating" "Rating must be between 1 and 10"⟩ ↔
        ¬ (1 ≤ req.Rating ∧ req.Rating ≤ 10)) := by
  have hv : ∀ rating : Int, validateRating rating = true ↔ (1 ≤ rating ∧ rating ≤ 10) := by
    intro rating
    simp [validateRating]
  refine ⟨hv, by decide, by decide, by decide, by decide, ?_⟩
  rw [← hv]
  by_cases h3 : validateRating req.Rating = true
  · simp [handleSubmitComplaint, post, hu, ht, hs, h3, sendJSON]
  · simp [handleSubmitComplaint, post, hu, ht, hs, h3, sendError]

/-- Witness of C10: Bob submits a complaint rated 11. -/
theorem C10_rating_bounds_witness :
    (handleSubmitComplaint (run initStore sampleTrace) sampleEnv
        (post ⟨"0102030405060708", "Slow page", "The listing takes a minute", 11⟩)).2 =
      ⟨400, Payload.error "invalid_rating" "Rating must be between 1 and 10"⟩ :=
  (C10_rating_bounds (run initStore sampleTrace) sampleEnv
      ⟨"0102030405060708", "Slow page", "The listing takes a minute", 11⟩
      ⟨"2", "0102030405060708", "Bob", "bob@example.com", ["C3"], false⟩
      rfl (by decide) (by decide)).2.2.2.2.2.mpr (by decide)

/-- Counterexample to C11 as stated: a title of 201 characters (one space and
200 letters) is accepted, and a title of exactly 200 characters, each the
two-byte letter e-acute, that is non-empty after trimming is rejected; the
same with summaries of 1001 and 1000 characters. -/
theorem C11_counterexample :
    ((paddedText 200).length = 201 ∧ validateComplaintTitle (paddedText 200) = true) ∧
      ((accentedText 200).length = 200 ∧ trimSpace (accentedText 200) ≠ "" ∧
        validateComplaintTitle (accentedText 200) = false) ∧
      ((paddedText 1000).length = 1001 ∧ validateComplaintSummary (paddedText 1000) = true) ∧
      ((accentedText 1000).length = 1000 ∧ trimSpace (accentedText 1000) ≠ "" ∧
        validateComplaintSummary (accentedText 1000) = false) := by
  decide

/-- C11 (amended): every title of exactly 200 characters, all of them one-byte
(ASCII) characters, that is non-empty after trimming is accepted by
`validateComplaintTitle`, and every title that still has more than 200
characters (so in particular 201) after trimming is rejected; every summary of
exactly 1000 one-byte characters that is non-empty after trimming is accepted
by `validateComplaintSummary`, and every summary that still has more than 1000
characters (so in particular 1001) after trimming is rejected. -/
theorem C11_length_boundaries (t : String) :
    ((∀ c ∈ t.data, c.toNat < 128) → t.length = 200 → trimSpace t ≠ "" →
        validateComplaintTitle t = true) ∧
      (200 < (trimSpace t).length → validateComplaintTitle t = false) ∧
      ((∀ c ∈ t.data, c.toNat < 128) → t.length = 1000 → trimSpace t ≠ "" →
        validateComplaintSummary t = true) ∧
      (1000 < (trimSpace t).length → validateComplaintSummary t = false) := by
  have hle : (trimSpace t).length ≤ t.length := (trimSpace_sublist t).length_le
  have hge := len_trimSpace_ge t
  refine ⟨?_, ?_, ?_, ?_⟩
  · intro hascii hlen hne
    have h1 := len_trimSpace_of_ascii t hascii
    have h2 := length_pos_of_ne_empty _ hne
    simp only [validateComplaintTitle, Bool.and_eq_true, decide_eq_true_eq]
    omega
  · intro hlen
    simp only [validateComplaintTitle, Bool.and_eq_false_iff, decide_eq_false_iff_not]
    right
    omega
  · intro hascii hlen hne
    have h1 := len_trimSpace_of_ascii t hascii
    have h2 := length_pos_of_ne_empty _ hne
    simp only [validateComplaintSummary, Bool.and_eq_true, decide_eq_true_eq]
    omega
  · intro hlen
    simp only [validateComplaintSummary, Bool.and_eq_false_iff, decide_eq_false_iff_not]
    right
    omega

/-- Witness of C11 (amended): a title of 200 letters `a` is accepted, and a
title of 201 letters `a` is rejected. -/
theorem C11_length_boundaries_witness :
    validateComplaintTitle (String.mk (List.replicate 200 'a')) = true ∧
      validateComplaintTitle (String.mk (List.replicate 201 'a')) = false :=
  ⟨(C11_length_boundaries (String.mk (List.replicate 200 'a'))).1
      (by decide) (by decide) (by decide),
    (C11_length_boundaries (String.mk (List.replicate 201 'a'))).2.1 (by decide)⟩

/-- C12: `validateEmail email` is true exactly when `email` has the form
`local@domain` with exactly one `@`, a non-empty local part, a non-empty
domain, and at least one `.` in the domain. -/
theorem C12_validateEmail_iff_shape (email : String) :
    validateEmail email = true ↔ EmailShape email := by
  rw [validateEmail_eq]
  unfold EmailShape
  constructor
  · intro h
    rcases hs : splitChars '@' email.data with _ | ⟨a, _ | ⟨b, _ | ⟨c, rest⟩⟩⟩
    · rw [hs] at h
      simp at h
    · rw [hs] at h
      simp at h
    · rw [hs] at h
      obtain ⟨h1, h2, h3⟩ := (splitChars_eq_pair '@' email.data a b).mp hs
      simp at h
      exact ⟨a, b, h1, h2, h3, h.1.1, h.1.2, h.2⟩
    · rw [hs] at h
      simp at h
  · rintro ⟨l, d, h1, h2, h3, h4, h5, h6⟩
    rw [(splitChars_eq_pair '@' email.data l d).mpr ⟨h1, h2, h3⟩]
    cases l with
    | nil => exact absurd rfl h4
    | cons x xs =>
      cases d with
      | nil => exact absurd rfl h5
      | cons y ys => simpa using h6

/-- Counterexample to C13 as stated: Bob registers and submits a complaint whose
title is one space followed by 200 letters; the request is accepted and the
title is stored as sent, with its 201 characters. -/
theorem C13_counterexample :
    (mapGet (run initStore [bobRegisters, bobSubmitsPadded]).complaints "C3").map
        (fun cm => (cm.Title, cm.Title.length)) =
      some (paddedText 200, 201) := by
  decide

/-- C13 (amended): after any sequence of requests from the seeded store, every
stored complaint has a title that is non-empty after trimming and has at most
200 characters after trimming, a summary that is non-empty after trimming and
has at most 1000 characters after trimming, and a rating from 1 to 10. -/
theorem C13_stored_complaints_valid (tr : List Event) :
    ∀ kv ∈ (run initStore tr).complaints,
      trimSpace kv.2.Title ≠ "" ∧ (trimSpace kv.2.Title).length ≤ 200 ∧
      trimSpace kv.2.Summary ≠ "" ∧ (trimSpace kv.2.Summary).length ≤ 1000 ∧
      1 ≤ kv.2.Rating ∧ kv.2.Rating ≤ 10 := by
  intro kv hkv
  have hs := shape_reachable tr
  have hget := mem_mapGet _ hs.complaints_nodup kv.1 kv.2 hkv
  obtain ⟨h1, h2, h3⟩ := hs.complaint_valid _ _ hget
  have g1 := len_trimSpace_ge kv.2.Title
  have g2 := len_trimSpace_ge kv.2.Summary
  have hempty : len "" = 0 := rfl
  simp only [validateComplaintTitle, Bool.and_eq_true, decide_eq_true_eq] at h1
  simp only [validateComplaintSummary, Bool.and_eq_true, decide_eq_true_eq] at h2
  simp only [validateRating, Bool.and_eq_true, decide_eq_true_eq] at h3
  refine ⟨?_, by omega, ?_, by omega, h3.1, h3.2⟩
  · intro h
    rw [h, hempty] at h1
    omega
  · intro h
    rw [h, hempty] at h2
    omega

/-- Witness of C13 (amended): the complaint `C3` stored after Bob's submission. -/
theorem C13_stored_complaints_valid_witness :
    trimSpace bobsComplaint.Title ≠ "" ∧ (trimSpace bobsComplaint.Title).length ≤ 200 ∧
      trimSpace bobsComplaint.Summary ≠ "" ∧ (trimSpace bobsComplaint.Summary).length ≤ 1000 ∧
      1 ≤ bobsComplaint.Rating ∧ bobsComplaint.Rating ≤ 10 :=
  C13_stored_complaints_valid sampleTrace ("C3", bobsComplaint) (by decide)

/-- C14: while the counter is below the integer maximum, `generateID` adds
exactly one to it, leaves the rest of the store alone and returns the decimal
form of the new value; so `k` successive calls return the decimal forms of
`c+1, …, c+k`, a later call returning the decimal form of a strictly greater
integer than an earlier one, the returned strings are pairwise distinct, and
from counter 0 the call number `i+1` returns the decimal form of `i+1`. -/
theorem C14_generateID_counts (s : Store) (k : Nat) (hlo : -(2 ^ 63) ≤ s.idCounter)
    (hhi : s.idCounter + k < 2 ^ 63) :
    (0 < k → generateID s =
        ({ s with idCounter := s.idCounter + 1 }, itoa (s.idCounter + 1))) ∧
      (∀ i j, i < j → j < k → ∃ m n : Int, m < n ∧
        (generateIDs k s).2[i]? = some (itoa m) ∧ (generateIDs k s).2[j]? = some (itoa n)) ∧
      (generateIDs k s).2.Nodup ∧
      (s.idCounter = 0 → ∀ i, i < k → (generateIDs k s).2[i]? = some (itoa ((i + 1 : Nat) : Int))) := by
  obtain ⟨h1, _⟩ := generateIDs_spec k s hlo hhi
  have hget : ∀ i, i < k →
      (generateIDs k s).2[i]? = some (itoa (s.idCounter + (i + 1 : Nat))) := by
    intro i hi
    rw [h1]
    simp [hi]
  refine ⟨?_, ?_, ?_, ?_⟩
  · intro hk
    have hw : wrapInt64 (s.idCounter + 1) = s.idCounter + 1 :=
      wrapInt64_eq _ (by omega) (by omega)
    simp [generateID, hw]
  · intro i j hij hj
    exact ⟨_, _, by push_cast; omega, hget i (by omega), hget j hj⟩
  · rw [h1]
    apply List.Nodup.map_on _ (List.nodup_range k)
    intro x _ y _ hxy
    have := itoa_injective _ _ hxy
    push_cast at this
    omega
  · intro h0 i hi
    rw [hget i hi, h0, zero_add]

/-- Witness of C14: three calls from the freshly declared counter 0. -/
theorem C14_generateID_counts_witness :
    generateID emptyStore = ({ emptyStore with idCounter := 1 }, "1") ∧
      (generateIDs 3 emptyStore).2 = ["1", "2", "3"] ∧
      (generateIDs 3 emptyStore).2.Nodup :=
  have h := C14_generateID_counts emptyStore 3 (by decide) (by decide)
  ⟨h.1 (by decide), by decide, h.2.2.1⟩

/-- C15: after any sequence of requests from the seeded store, every complaint
is stored under the key equal to its own `ID`, that `ID` is `C` followed by a
printed integer, and no complaint `ID` equals the `ID` of a stored user; and
(as long as the 64-bit id counter cannot have wrapped around, that is for
fewer than `2^63 - 2` requests served so far) a request answered 201 with a
created complaint finds no entry under the new id and adds the new entry
behind the existing ones, which it leaves as they are. -/
theorem C15_complaint_ids (tr : List Event) :
    (∀ kv ∈ (run initStore tr).complaints,
        kv.2.ID = kv.1 ∧ ∃ n : Int, kv.2.ID = "C" ++ itoa n) ∧
      (∀ kv ∈ (run initStore tr).complaints, ∀ ku ∈ (run initStore tr).users,
        kv.2.ID ≠ ku.2.ID) ∧
      (tr.length + 2 < 2 ^ 63 → ∀ (e : Event) (c : Complaint),
        (handle (run initStore tr) e).2 = ⟨201, Payload.complaint c⟩ →
        mapGet (run initStore tr).complaints c.ID = none ∧
        (handle (run initStore tr) e).1.complaints =
          (run initStore tr).complaints ++ [(c.ID, c)]) := by
  have hs := shape_reachable tr
  have hi := idShape_reachable tr
  have hkey : ∀ kv ∈ (run initStore tr).complaints,
      kv.2.ID = kv.1 ∧ ∃ n : Int, kv.2.ID = "C" ++ itoa n := by
    intro kv hkv
    have hget := mem_mapGet _ hs.complaints_nodup kv.1 kv.2 hkv
    have h1 := hs.complaint_key _ _ hget
    obtain ⟨n, hn⟩ := hi.complaint_id _ _ hget
    exact ⟨h1, n, by rw [h1, hn]⟩
  refine ⟨hkey, ?_, ?_⟩
  · intro kv hkv ku hku heq
    obtain ⟨_, n, hn⟩ := hkey kv hkv
    obtain ⟨m, hm⟩ := hi.user_id _ _ (mem_mapGet _ hs.users_nodup ku.1 ku.2 hku)
    rw [hn, hm] at heq
    exact complaint_id_ne_itoa _ _ heq
  · intro hc e c hresp
    obtain ⟨hinv, hcnt⟩ := inv_reachable tr (by omega)
    have hc2 : ((tr.length : Int) + 2 < 2 ^ 63) := by exact_mod_cast hc
    have hw : wrapInt64 ((run initStore tr).idCounter + 1) =
        (run initStore tr).idCounter + 1 :=
      wrapInt64_eq _ (by have := hinv.counter_pos; omega) (by omega)
    rcases handle_cases (run initStore tr) e with ⟨_, h2⟩ | ⟨env, req, _, h1⟩ |
      ⟨env, req, u, hu, h1⟩ | ⟨env, cid, cm, _, h1⟩
    · exact absurd hresp (h2 c)
    · rw [h1] at hresp
      simp at hresp
    · rw [h1] at hresp ⊢
      simp only [Response.mk.injEq, Payload.complaint.injEq, true_and] at hresp
      subst hresp
      have hfresh : mapGet (run initStore tr).complaints
          (newComplaint (run initStore tr) env req u).ID = none := by
        simp only [newComplaint, hw]
        cases hg : mapGet (run initStore tr).complaints
            ("C" ++ itoa ((run initStore tr).idCounter + 1)) with
        | none => rfl
        | some x => exact absurd hg (complaint_id_fresh _ hinv x)
      refine ⟨hfresh, ?_⟩
      simp only [submittedStore]
      exact mapSet_of_none _ _ _ hfresh
    · rw [h1] at hresp
      simp at hresp

/-- Witness of C15: Bob's second submission, after `C3`, is stored behind it
under the new id `C4`. -/
theorem C15_complaint_ids_witness :
    (handle (run initStore sampleTrace) bobSubmits).1.complaints =
      (run initStore sampleTrace).complaints ++
        [("C4", { bobsComplaint with ID := "C4" })] :=
  ((C15_complaint_ids sampleTrace).2.2 (by decide) bobSubmits
    { bobsComplaint with ID := "C4" } (by decide)).2

/-- C16: for every store and every request, whatever its method and body, if
the handler answers with one of the error statuses 405, 400, 401, 403, 404 or
409, then the store it leaves (users map with every owned-complaint list,
complaints map with every field, id counter) is exactly the store it found. -/
theorem C16_errors_leave_store (s : Store) (e : Event)
    (h : (handle s e).2.status ∈ [405, 400, 401, 403, 404, 409]) :
    (handle s e).1 = s := by
  rcases handle_cases s e with ⟨h1, _⟩ | ⟨env, req, _, h1⟩ | ⟨env, req, u, _, h1⟩ |
    ⟨env, cid, cm, _, h1⟩
  · exact h1
  · rw [h1] at h
    simp at h
  · rw [h1] at h
    simp at h
  · rw [h1] at h
    simp at h

/-- Witness of C16: a registration under the email Bob already uses is answered
409 and the store stays as it was. -/
theorem C16_errors_leave_store_witness :
    (handle (run initStore sampleTrace) robertRegisters).2.status = 409 ∧
      (handle (run initStore sampleTrace) robertRegisters).1 = run initStore sampleTrace :=
  ⟨by decide, C16_errors_leave_store (run initStore sampleTrace) robertRegisters (by decide)⟩

/-- C17: for every store and every code that authenticates to a user `u`,
`handleGetAllComplaintsForUser` answers 200 with exactly the records obtained
from `u.Complaints` by dropping the ids the complaint store does not hold and
replacing every other id by the record stored under it, in the order of
`u.Complaints`; an id without a record raises no error, and the store is
returned unchanged. -/
theorem C17_listing_is_owned_records (s : Store) (code : String) (u : User)
    (hu : authenticateUser s code = Except.ok u) :
    handleGetAllComplaintsForUser s (post ⟨code⟩) =
      (s, ⟨200, Payload.complaintList (ownedRecords s.complaints u.Complaints)⟩) := by
  have hcollect : ∀ ids, collectComplaints s.complaints ids = ownedRecords s.complaints ids := by
    intro ids
    induction ids with
    | nil => rfl
    | cons c ids ih =>
      cases hc : mapGet s.complaints c with
      | none =>
        simp only [collectComplaints, hc, ih]
        simp [ownedRecords, hc]
      | some cm =>
        simp only [collectComplaints, hc, ih]
        simp [ownedRecords, hc]
  simp [handleGetAllComplaintsForUser, post, hu, sendJSON, hcollect]

/-- Witness of C17: a store in which Bob owns `C3`, which is stored, and `C9`,
which is not; his listing is the record of `C3` alone. -/
theorem C17_listing_is_owned_records_witness :
    handleGetAllComplaintsForUser
        ⟨[("0102030405060708",
            ⟨"2", "0102030405060708", "Bob", "bob@example.com", ["C9", "C3"], false⟩)],
          [("C3", bobsComplaint)], 3⟩
        (post ⟨"0102030405060708"⟩) =
      (⟨[("0102030405060708",
            ⟨"2", "0102030405060708", "Bob", "bob@example.com", ["C9", "C3"], false⟩)],
          [("C3", bobsComplaint)], 3⟩,
        ⟨200, Payload.complaintList [bobsComplaint]⟩) :=
  C17_listing_is_owned_records _ "0102030405060708"
    ⟨"2", "0102030405060708", "Bob", "bob@example.com", ["C9", "C3"], false⟩ rfl

/-- C18: `handleSubmitComplaint` reports the earliest failing check in the
order method, body, authentication, title, summary, rating: a method other than
POST is answered 405 whatever the body; a POST whose body does not decode is
answered 400 `invalid_json`; and a well-formed POST is answered 401
`authentication_failed` when the code does not authenticate (whatever title,
summary and rating are), otherwise 400 `invalid_title` when the title is
invalid, otherwise 400 `invalid_summary` when the summary is invalid, otherwise
400 `invalid_rating` when the rating is invalid, otherwise 201. -/
theorem C18_submit_check_order (s : Store) (env : Env) (req : SubmitComplaintRequest) :
    (∀ method body, method ≠ "POST" →
        (handleSubmitComplaint s env ⟨method, body⟩).2 =
          ⟨405, Payload.error "method_not_allowed" "Only POST method is allowed"⟩) ∧
      (handleSubmitComplaint s env ⟨"POST", none⟩).2 =
        ⟨400, Payload.error "invalid_json" "Invalid JSON in request body"⟩ ∧
      (∀ msg, authenticateUser s req.SecretCode = Except.error msg →
        (handleSubmitComplaint s env (post req)).2 =
          ⟨401, Payload.error "authentication_failed" msg⟩) ∧
      (∀ u, authenticateUser s req.SecretCode = Except.ok u →
        (validateComplaintTitle req.Title = false →
          (handleSubmitComplaint s env (post req)).2 =
            ⟨400, Payload.error "invalid_title"
              "Title is required and must be less than 200 characters"⟩) ∧
        (validateComplaintTitle req.Title = true →
          validateComplaintSummary req.Summary = false →
          (handleSubmitComplaint s env (post req)).2 =
            ⟨400, Payload.error "invalid_summary"
              "Summary is required and must be less than 1000 characters"⟩) ∧
        (validateComplaintTitle req.Title = true →
          validateComplaintSummary req.Summary = true →
          validateRating req.Rating = false →
          (handleSubmitComplaint s env (post req)).2 =
            ⟨400, Payload.error "invalid_rating" "Rating must be between 1 and 10"⟩) ∧
        (validateComplaintTitle req.Title = true →
          validateComplaintSummary req.Summary = true →
          validateRating req.Rating = true →
          (handleSubmitComplaint s env (post req)).2.status = 201)) := by
  refine ⟨?_, ?_, ?_, ?_⟩
  · intro method body hm
    simp [handleSubmitComplaint, hm, sendError]
  · simp [handleSubmitComplaint, sendError]
  · intro msg hmsg
    simp [handleSubmitComplaint, post, hmsg, sendError]
  · intro u hu
    refine ⟨?_, ?_, ?_, ?_⟩
    · intro h1
      simp [handleSubmitComplaint, post, hu, h1, sendError]
    · intro h1 h2
      simp [handleSubmitComplaint, post, hu, h1, h2, sendError]
    · intro h1 h2 h3
      simp [handleSubmitComplaint, post, hu, h1, h2, h3, sendError]
    · intro h1 h2 h3
      simp [handleSubmitComplaint, post, hu, h1, h2, h3, sendJSON]

/-- Witness of C18: Bob submits an empty title together with the rating 11 and
is told about the title. -/
theorem C18_submit_check_order_witness :
    (handleSubmitComplaint (run initStore sampleTrace) sampleEnv
        (post ⟨"0102030405060708", "  ", "The listing takes a minute", 11⟩)).2 =
      ⟨400, Payload.error "invalid_title"
        "Title is required and must be less than 200 characters"⟩ :=
  ((C18_submit_check_order (run initStore sampleTrace) sampleEnv
      ⟨"0102030405060708", "  ", "The listing takes a minute", 11⟩).2.2.2
    ⟨"2", "0102030405060708", "Bob", "bob@example.com", ["C3"], false⟩ rfl).1 (by decide)

/-- C19: in a store reached from the seeded one (the 64-bit id counter not
having wrapped around, that is for fewer than `2^63 - 2` requests served so
far), a `handleSubmitComplaint` request of the authenticated user `u` that is
answered 201 returns a complaint whose id has no entry yet, with status
`pending`, `ResolvedAt` unset, `UserID = u.ID`, `UserName = u.Name` and the
title, summary and rating of the request; the complaint store afterwards is
the old one followed by that single new entry; `u`'s entry is `u` with the new
id appended at the end of `Complaints` and nothing else changed; every other
user entry is as before, and no user entry is added or removed. -/
theorem C19_submit_frame (tr : List Event) (env : Env) (req : SubmitComplaintRequest)
    (u : User) (hc : tr.length + 2 < 2 ^ 63)
    (hu : authenticateUser (run initStore tr) req.SecretCode = Except.ok u)
    (hok : (handleSubmitComplaint (run initStore tr) env (post req)).2.status = 201) :
    ∃ cm : Complaint,
      (handleSubmitComplaint (run initStore tr) env (post req)).2 =
        ⟨201, Payload.complaint cm⟩ ∧
      mapGet (run initStore tr).complaints cm.ID = none ∧
      cm.Status = "pending" ∧ cm.ResolvedAt = none ∧
      cm.UserID = u.ID ∧ cm.UserName = u.Name ∧
      cm.Title = req.Title ∧ cm.Summary = req.Summary ∧ cm.Rating = req.Rating ∧
      (handleSubmitComplaint (run initStore tr) env (post req)).1.complaints =
        (run initStore tr).complaints ++ [(cm.ID, cm)] ∧
      mapGet (handleSubmitComplaint (run initStore tr) env (post req)).1.users
          req.SecretCode =
        some { u with Complaints := u.Complaints ++ [cm.ID] } ∧
      (∀ k, k ≠ req.SecretCode →
        mapGet (handleSubmitComplaint (run initStore tr) env (post req)).1.users k =
          mapGet (run initStore tr).users k) ∧
      (handleSubmitComplaint (run initStore tr) env (post req)).1.users.map Prod.fst =
        (run initStore tr).users.map Prod.fst := by
  obtain ⟨hinv, hcnt⟩ := inv_reachable tr (by omega)
  have hc2 : ((tr.length : Int) + 2 < 2 ^ 63) := by exact_mod_cast hc
  have hw : wrapInt64 ((run initStore tr).idCounter + 1) =
      (run initStore tr).idCounter + 1 :=
    wrapInt64_eq _ (by have := hinv.counter_pos; omega) (by omega)
  have hstored := ((authenticateUser_ok_iff _ _ _).mp hu).2
  rcases handleSubmitComplaint_cases (run initStore tr) env (post req) with
    ⟨_, code, err, msg, h1, _, h3⟩ | ⟨req2, u2, hreq, hu2, _, _, _, h1⟩
  · rw [h1] at hok
    exact absurd hok h3
  · have hreq2 : req2 = req := by
      have := congrArg HttpRequest.body hreq
      simp only [post, Option.some.injEq] at this
      exact this.symm
    subst hreq2
    rw [hu] at hu2
    have hu3 : u2 = u := by
      injection hu2 with h
      exact h.symm
    subst hu3
    have hfresh : mapGet (run initStore tr).complaints
        (newComplaint (run initStore tr) env req2 u2).ID = none := by
      simp only [newComplaint, hw]
      cases hg : mapGet (run initStore tr).complaints
          ("C" ++ itoa ((run initStore tr).idCounter + 1)) with
      | none => rfl
      | some x => exact absurd hg (complaint_id_fresh _ hinv x)
    rw [h1]
    refine ⟨newComplaint (run initStore tr) env req2 u2, rfl, hfresh, rfl, rfl, rfl, rfl,
      rfl, rfl, rfl, ?_, ?_, ?_, ?_⟩
    · simp only [submittedStore]
      exact mapSet_of_none _ _ _ hfresh
    · simp only [submittedStore]
      rw [mapGet_mapSet_same]
      rfl
    · intro k hk
      simp only [submittedStore]
      exact mapGet_mapSet_ne _ _ _ _ (fun e => hk e.symm)
    · simp only [submittedStore]
      exact mapSet_keys_of_some _ _ _ _ hstored

/-- Witness of C19: Bob's second submission, after `C3`. -/
theorem C19_submit_frame_witness :
    ∃ cm : Complaint,
      (handleSubmitComplaint (run initStore sampleTrace) sampleEnv
          (post ⟨"0102030405060708", "Slow page", "The listing takes a minute", 7⟩)).2 =
        ⟨201, Payload.complaint cm⟩ ∧
      mapGet (run initStore sampleTrace).complaints cm.ID = none ∧
      (handleSubmitComplaint (run initStore sampleTrace) sampleEnv
          (post ⟨"0102030405060708", "Slow page", "The listing takes a minute", 7⟩)).1.complaints =
        (run initStore sampleTrace).complaints ++ [(cm.ID, cm)] :=
  (C19_submit_frame sampleTrace sampleEnv
    ⟨"0102030405060708", "Slow page", "The listing takes a minute", 7⟩
    ⟨"2", "0102030405060708", "Bob", "bob@example.com", ["C3"], false⟩
    (by decide) rfl (by decide)).elim
    fun cm h => ⟨cm, h.1, h.2.1, h.2.2.2.2.2.2.2.2.2.1⟩

/-- C20 fails on the code: with complaint `C3` pending, two resolve requests of
the admin served concurrently, both goroutines passing the status test before
either takes the write lock, are both answered 200; `ResolvedAt` is written
twice, and the stored value ends as the clock of the second writer, not the
one the first request was answered with.  Served one after the other, the
same two requests are answered 200 and 400. -/
theorem C20_concurrent_resolves_both_succeed :
    bothCheckThenWrite (run initStore sampleTrace) ⟨1700000100, none⟩ ⟨1700000200, none⟩
        (post ⟨"ADMIN123", "C3"⟩) (post ⟨"ADMIN123", "C3"⟩) =
      ({ run initStore sampleTrace with
          complaints := [("C3",
            { bobsComplaint with Status := "resolved", ResolvedAt := some 1700000200 })] },
        ⟨200, Payload.complaint
          { bobsComplaint with Status := "resolved", ResolvedAt := some 1700000100 }⟩,
        ⟨200, Payload.complaint
          { bobsComplaint with Status := "resolved", ResolvedAt := some 1700000200 }⟩) ∧
      (responses (run initStore sampleTrace)
          [⟨⟨1700000100, none⟩, Request.resolveComplaint (post ⟨"ADMIN123", "C3"⟩)⟩,
            ⟨⟨1700000200, none⟩, Request.resolveComplaint (post ⟨"ADMIN123", "C3"⟩)⟩]).map
        (fun r => r.status) = [200, 400] := by
  decide

end ComplaintPortal
